import Mathlib

set_option linter.unusedVariables false

/- Shallow embedding of the recursive load-forecasting pipeline of the
   realtime-load-predictions repository
   (src/ml_engine/prediction/rf_predict.py and
   src/ml_engine/v2/prediction/future_predict.py, predict.py).

   Modelling conventions:
   - numeric values are exact rationals (the claims under study are about
     exact arithmetic relationships between the quantities the code computes);
   - a pandas NaN cell is Option.none; a pandas DataFrame is an association
     list from column name to column values (pandas column semantics:
     assignment replaces an existing column in place and appends a new one
     at the end);
   - timestamps are rationals measured in seconds since the Unix epoch;
   - the persisted model/scaler pair, the Gaussian noise source, and the
     irrational-valued numeric primitives sqrt, sin (2*pi*x) and
     cos (2*pi*x) are opaque function parameters: the spec treats the
     model as "an opaque function mapping a feature vector to a scalar"
     and mandates an injectable random source;
   - fallible Python operations (KeyError on a missing column, IndexError
     on out-of-range iloc indexing) return Except values. -/

deriving instance DecidableEq for Except

/-- Insertion of a value into a sorted list, first position where le holds. -/
def insertSorted {a : Type} (le : a → a → Bool) (x : a) : List a → List a
  | [] => [x]
  | y :: r => if le x y then x :: y :: r else y :: insertSorted le x r

/-- Stable structural sort (insertion sort), used for every pandas sort in
this embedding; equal keys keep their input order. -/
def sortBy {a : Type} (le : a → a → Bool) : List a → List a
  | [] => []
  | x :: r => insertSorted le x (sortBy le r)

/-- Arithmetic mean of a list of rationals (pandas Series.mean, numpy mean).
Every use below is guarded by a nonemptiness check in the source, so the
value at [] is never relied upon. -/
def meanList (xs : List ℚ) : ℚ := xs.sum / (xs.length : ℚ)

/-- Minimum of a list of rationals (pandas Series.min / numpy min on a
nonempty all-defined column). -/
def listMin : List ℚ → ℚ
  | [] => 0
  | x :: r => r.foldl min x

/-- Maximum of a list of rationals (pandas Series.max / numpy max). -/
def listMax : List ℚ → ℚ
  | [] => 0
  | x :: r => r.foldl max x

/-- Consecutive differences (pandas Series.diff().dropna()). -/
def pairDiffs : List ℚ → List ℚ
  | [] => []
  | [_] => []
  | x :: y :: r => (y - x) :: pairDiffs (y :: r)

/-- Sample variance, ddof = 1; pandas Series.std is its square root. -/
def sampleVar (xs : List ℚ) : ℚ :=
  (xs.map (fun x => (x - meanList xs) ^ 2)).sum / ((xs.length : ℚ) - 1)

/-- Population variance, ddof = 0; numpy std is its square root. -/
def popVar (xs : List ℚ) : ℚ :=
  (xs.map (fun x => (x - meanList xs) ^ 2)).sum / (xs.length : ℚ)

/-- Python list indexing with negative-index support; an out-of-range index
raises IndexError (pandas iloc single-integer access behaves the same way). -/
def pyGet (xs : List ℚ) (k : ℤ) : Except String ℚ :=
  let j : ℤ := if k < 0 then (xs.length : ℤ) + k else k
  if 0 ≤ j ∧ j < (xs.length : ℤ) then .ok (xs.getD j.toNat 0) else .error "IndexError"

/-- Hour-of-day of an epoch-seconds timestamp (pandas Series.dt.hour). -/
def hour_of_day_q (t : ℚ) : ℚ := ((((Int.floor t).fdiv 3600) % 24 : ℤ) : ℚ)

/-- Day-of-week, Monday = 0 (pandas Series.dt.dayofweek); the Unix epoch
1970-01-01 was a Thursday, hence the offset 3. -/
def day_of_week_q (t : ℚ) : ℚ := (((((Int.floor t).fdiv 86400) + 3) % 7 : ℤ) : ℚ)

/-- Proleptic-Gregorian civil date (year, month, day) from a day count
relative to the Unix epoch; standard days-to-civil conversion, matching
pandas Series.dt.month / Series.dt.day over the datetime64 range. -/
def civilFromDays (z0 : ℤ) : ℤ × ℤ × ℤ :=
  let z := z0 + 719468
  let era := z.fdiv 146097
  let doe := z - era * 146097
  let yoe := (doe - doe.fdiv 1460 + doe.fdiv 36524 - doe.fdiv 146096).fdiv 365
  let y := yoe + era * 400
  let doy := doe - (365 * yoe + yoe.fdiv 4 - yoe.fdiv 100)
  let mp := (5 * doy + 2).fdiv 153
  let d := doy - (153 * mp + 2).fdiv 5 + 1
  let m := mp + (if mp < 10 then 3 else -9)
  (if m ≤ 2 then y + 1 else y, m, d)

/-- Month of an epoch-seconds timestamp (pandas Series.dt.month). -/
def month_q (t : ℚ) : ℚ := (((civilFromDays ((Int.floor t).fdiv 86400)).2.1 : ℤ) : ℚ)

/-- Day-of-month of an epoch-seconds timestamp (pandas Series.dt.day). -/
def day_of_month_q (t : ℚ) : ℚ := (((civilFromDays ((Int.floor t).fdiv 86400)).2.2 : ℤ) : ℚ)

/-- Day-part category of an hour; rf_predict.py get_day_part (and the
identical nested function of future_predict.py): morning for 5 <= h < 12,
afternoon for 12 <= h < 17, evening for 17 <= h < 22, night otherwise. -/
def get_day_part (h : ℚ) : String :=
  if 5 ≤ h ∧ h < 12 then "morning"
  else if 12 ≤ h ∧ h < 17 then "afternoon"
  else if 17 ≤ h ∧ h < 22 then "evening"
  else "night"

/-- Weekend indicator applied to a day-of-week value: 1 if x >= 5 else 0. -/
def is_weekend_q (d : ℚ) : ℚ := if 5 ≤ d then 1 else 0

/-- One pandas cell: none models NaN. -/
abbrev Cell := Option ℚ

/-- A pandas DataFrame, column-major: column name to column values. -/
abbrev Frame := List (String × List Cell)

/-- Column lookup in an association list (first match wins, as pandas
column names are unique). -/
def alistGet {b : Type} : List (String × b) → String → Option b
  | [], _ => none
  | (n, v) :: r, c => if n = c then some v else alistGet r c

/-- Column membership. -/
def alistHas {b : Type} (f : List (String × b)) (c : String) : Bool :=
  (alistGet f c).isSome

/-- Column assignment, pandas semantics: replace in place when the column
exists (names are unique, so the first match is the column), append at the
end otherwise. -/
def alistSet {b : Type} : List (String × b) → String → b → List (String × b)
  | [], c, v => [(c, v)]
  | (n, w) :: r, c, v => if n = c then (c, v) :: r else (n, w) :: alistSet r c v

/-- Column names of a frame in order. -/
def colNames {b : Type} (f : List (String × b)) : List String := f.map Prod.fst

/-- Row count of a frame (len(df)); the frames the code builds have
equal-length columns. -/
def frameHeight : Frame → ℕ
  | [] => 0
  | (_, v) :: _ => v.length

/-- Column access that raises KeyError when absent (df[c]). -/
def getColE (df : Frame) (c : String) : Except String (List Cell) :=
  match alistGet df c with
  | some v => .ok v
  | none => .error ("KeyError: " ++ c)

/-- Series.shift(k): k leading NaN cells, the tail truncated. -/
def shiftSeries (k : ℕ) (xs : List Cell) : List Cell :=
  List.replicate k none ++ xs.take (xs.length - k)

/-- The defined (non-NaN) values of the trailing window of width w ending
at row i; pandas rolling counts exactly these against min_periods. -/
def windowValid (w : ℕ) (xs : List Cell) (i : ℕ) : List ℚ :=
  ((xs.take (i + 1)).drop (i + 1 - w)).filterMap id

/-- Series.rolling(window = w, min_periods = 1).mean(). -/
def rollingMeanSeries (w : ℕ) (xs : List Cell) : List Cell :=
  (List.range xs.length).map (fun i =>
    let v := windowValid w xs i
    if v = [] then none else some (meanList v))

/-- Series.rolling(window = w, min_periods = 1).std(): pandas sample
standard deviation (ddof = 1), NaN when the window holds fewer than 2
defined observations; sq is the opaque square-root primitive. -/
def rollingStdSeries (sq : ℚ → ℚ) (w : ℕ) (xs : List Cell) : List Cell :=
  (List.range xs.length).map (fun i =>
    let v := windowValid w xs i
    if v.length < 2 then none else some (sq (sampleVar v)))

/-- Series.rolling(window = w, min_periods = 1).min(). -/
def rollingMinSeries (w : ℕ) (xs : List Cell) : List Cell :=
  (List.range xs.length).map (fun i =>
    let v := windowValid w xs i
    if v = [] then none else some (listMin v))

/-- Series.rolling(window = w, min_periods = 1).max(). -/
def rollingMaxSeries (w : ℕ) (xs : List Cell) : List Cell :=
  (List.range xs.length).map (fun i =>
    let v := windowValid w xs i
    if v = [] then none else some (listMax v))

/-- Default lag set of create_lag_features. -/
def lagPeriods : List ℕ := [1, 3, 6, 12, 24]

/-- Default window set of create_rolling_features. -/
def rollingWindows : List ℕ := [3, 6, 12, 24]

/-- The four day-part categories, in the order rf_predict.py iterates them. -/
def dayPartNames : List String := ["morning", "afternoon", "evening", "night"]

/-- Day-part of an hour cell; pandas applies get_day_part to the raw hour
value, and every comparison with NaN is false, so a NaN hour falls through
to night. -/
def dayPartOfCell (c : Cell) : String :=
  match c with
  | none => "night"
  | some h => get_day_part h

/-- create_lag_features of rf_predict.py (the v2 copy is identical):
df[target + "_lag_" + k] = df[target].shift(k) for each configured lag;
reading df[target] raises KeyError when the target column is absent. -/
def create_lag_features (df : Frame) (target : String) : Except String Frame :=
  lagPeriods.foldlM (fun acc lag => do
    let col ← getColE acc target
    .ok (alistSet acc (target ++ "_lag_" ++ toString lag) (shiftSeries lag col))) df

/-- create_rolling_features of rf_predict.py (the v2 copy is identical):
trailing mean/std/min/max with min_periods = 1 per configured window;
reading df[target] raises KeyError when the target column is absent. -/
def create_rolling_features (sq : ℚ → ℚ) (df : Frame) (target : String) : Except String Frame :=
  rollingWindows.foldlM (fun acc w => do
    let col ← getColE acc target
    let acc := alistSet acc (target ++ "_rolling_mean_" ++ toString w) (rollingMeanSeries w col)
    let acc := alistSet acc (target ++ "_rolling_std_" ++ toString w) (rollingStdSeries sq w col)
    let acc := alistSet acc (target ++ "_rolling_min_" ++ toString w) (rollingMinSeries w col)
    .ok (alistSet acc (target ++ "_rolling_max_" ++ toString w) (rollingMaxSeries w col))) df

/-- Shared body of both calendar engineers up to the day-part one-hot:
hour/day/month features and the weekend flag, written in the column order
the source assigns them. -/
def calendarBase (df : Frame) (times : List Cell) : Frame :=
  let hours := times.map (Option.map hour_of_day_q)
  let dows := times.map (Option.map day_of_week_q)
  let d1 := alistSet df "hour_of_day" hours
  let d2 := alistSet d1 "day_of_week" dows
  let d3 := alistSet d2 "day_of_month" (times.map (Option.map day_of_month_q))
  let d4 := alistSet d3 "month" (times.map (Option.map month_q))
  alistSet d4 "is_weekend" (dows.map (fun c => some (is_weekend_q (c.getD 0))))

/-- Cyclic sin/cos encodings appended by both calendar engineers; s2p x and
c2p x stand for sin (2*pi*x) and cos (2*pi*x). -/
def calendarCyclic (s2p c2p : ℚ → ℚ) (df : Frame) (times : List Cell) : Frame :=
  let hours := times.map (Option.map hour_of_day_q)
  let dows := times.map (Option.map day_of_week_q)
  let d1 := alistSet df "hour_sin" (hours.map (Option.map (fun h => s2p (h / 24))))
  let d2 := alistSet d1 "hour_cos" (hours.map (Option.map (fun h => c2p (h / 24))))
  let d3 := alistSet d2 "day_sin" (dows.map (Option.map (fun d => s2p (d / 7))))
  alistSet d3 "day_cos" (dows.map (Option.map (fun d => c2p (d / 7))))

/-- create_time_features of rf_predict.py: returns the frame unmodified when
the time column is absent; otherwise derives the calendar features and
one-hot encodes the day part with an explicit loop over all four category
names, so all four indicator columns are always emitted.  The transient
day_part column the source adds and then drops is kept internal here. -/
def create_time_features (s2p c2p : ℚ → ℚ) (df : Frame) (time_col : String) : Frame :=
  match alistGet df time_col with
  | none => df
  | some times =>
    let d5 := calendarBase df times
    let parts := (times.map (Option.map hour_of_day_q)).map dayPartOfCell
    let d6 := dayPartNames.foldl (fun acc p =>
      alistSet acc ("day_part_" ++ p) (parts.map (fun dp => some (if dp = p then 1 else 0)))) d5
    calendarCyclic s2p c2p d6 times

/-- String-sorted deduplication: the category order pd.get_dummies uses. -/
def strSortedDedup (xs : List String) : List String :=
  sortBy (fun a b => decide (a ≤ b)) xs.dedup

/-- create_time_features of future_predict.py (v2): identical to the
rf_predict.py engineer except that the day-part one-hot uses
pd.get_dummies, which emits an indicator column only for each category
actually present in the batch (in sorted category order, appended where
the day_part column stood, i.e. before the cyclic features). -/
def create_time_features_v2 (s2p c2p : ℚ → ℚ) (df : Frame) (time_col : String) : Frame :=
  match alistGet df time_col with
  | none => df
  | some times =>
    let d5 := calendarBase df times
    let parts := (times.map (Option.map hour_of_day_q)).map dayPartOfCell
    let cats := strSortedDedup parts
    let d6 := cats.foldl (fun acc p =>
      alistSet acc ("day_part_" ++ p) (parts.map (fun dp => some (if dp = p then 1 else 0)))) d5
    calendarCyclic s2p c2p d6 times

/-- Feature reconciliation of make_predictions (rf_predict.py, the branch
where the scaler exposes feature_names_in_): every expected feature absent
from the frame is first added as a NaN-filled column, the expected features
are then selected in the scaler's order, and X.fillna(0) replaces every
remaining NaN by 0.  The result is the numeric feature matrix, column name
to values. -/
def reconcile_features (expected : List String) (df : Frame) : List (String × List ℚ) :=
  let h := frameHeight df
  let df2 := expected.foldl (fun acc f =>
    if alistHas acc f then acc else alistSet acc f (List.replicate h none)) df
  expected.map (fun f => (f, ((alistGet df2 f).getD []).map (fun c => c.getD 0)))

/-- Feature reconciliation of predict_with_xgb (v2/prediction/predict.py):
drop the columns the scaler did not see during training, append each
missing expected column filled with the scalar 0, then select the expected
columns in the scaler's order.  No fillna is applied, so pre-existing NaN
cells survive. -/
def predict_with_xgb_reconcile (expected : List String) (x : Frame) : Frame :=
  let xsub := x.filter (fun c => c.1 ∈ expected)
  let missing := expected.filter (fun f => ¬ alistHas xsub f)
  let xsub2 := missing.foldl (fun acc f =>
    alistSet acc f (List.replicate (frameHeight x) (some 0))) xsub
  expected.map (fun f => (f, (alistGet xsub2 f).getD []))

/-- A raw Python value as it can appear in a feature cell before numeric
coercion: a number, a string, a datetime (carried here directly as its
epoch-seconds value), a sequence, or NaN. -/
inductive PdValue where
  | num (q : ℚ)
  | str (s : String)
  | dt (epochSeconds : ℚ)
  | seq (xs : List ℚ)
  | nan
  deriving DecidableEq

/-- Per-value coercion of predict_future_values (future_predict.py, v2):
a sequence contributes its first element (0 when empty), any string is
replaced by 0, NaN is replaced by 0, a number is kept; float() applied to
a datetime raises TypeError, which the enclosing handler turns into 0. -/
def v2_coerce_value : PdValue → ℚ
  | .seq [] => 0
  | .seq (x :: _) => x
  | .str _ => 0
  | .nan => 0
  | .dt _ => 0
  | .num q => q

/-- View of a frame cell as a raw value (frames here carry numbers and NaN). -/
def cellToPdValue (c : Cell) : PdValue :=
  match c with
  | none => .nan
  | some q => .num q

/-- A feature-matrix column together with its pandas dtype, as the
column-wise coercion of make_predictions distinguishes them. -/
inductive PdColumn where
  | numeric (vals : List Cell)
  | datetime (vals : List ℚ)
  | strings (vals : List String)
  deriving DecidableEq

/-- Column-wise coercion of make_predictions and of the identical block of
predict_future_values (rf_predict.py): numeric columns pass through,
a datetime column becomes int64 nanoseconds divided by 10^9, i.e. its
epoch-seconds values, and any other column goes through
pd.to_numeric(errors = coerce) followed by fillna(0), so a string parses
to its number when the parser accepts it and becomes 0 otherwise.  The
pandas numeric parser is the opaque parameter parse. -/
def rf_coerce_column (parse : String → Option ℚ) : PdColumn → List Cell
  | .numeric vs => vs
  | .datetime vs => vs.map some
  | .strings vs => vs.map (fun s => some ((parse s).getD 0))

/-- Mean sampling interval of a time column (Series.diff().dropna().mean()). -/
def avgInterval (times : List ℚ) : ℚ := meanList (pairDiffs times)

/-- create_future_timepoints (identical in rf_predict.py and
future_predict.py): None when the time column is absent or len(df) <= 1;
otherwise the future time points last + (i+1) * avg_interval for
i = 0 .. periods-1, with last the maximum of the time column. -/
def create_future_timepoints (timeColPresent : Bool) (times : List ℚ) (periods : ℕ) :
    Option (List ℚ) :=
  if ¬ timeColPresent ∨ times.length ≤ 1 then none
  else some ((List.range periods).map (fun (i : ℕ) =>
    listMax times + ((i : ℚ) + 1) * avgInterval times))

/-- One historical record as the rf_predict.py forecaster reads it: the
timestamp, the target value, and the hour_of_day / day_of_week calendar
columns its caller created (main applies create_time_features before the
call), plus the remaining feature columns of the row. -/
structure HRow where
  time : ℚ
  target : ℚ
  hour : ℚ
  dow : ℚ
  extra : List (String × ℚ)
  deriving DecidableEq

/-- The historical frame handed to predict_future_values: whether the
time_dt column exists, and the rows.  The target column is assumed NaN-free
(main drops NaN targets before the call). -/
structure RfInput where
  timeColPresent : Bool
  rows : List HRow
  deriving DecidableEq

/-- The opaque collaborators of a forecast run: the regressor (a scalar
prediction per feature row), the fitted normalizer (a row transform and its
ordered expected-feature-name list), the injected standard-normal source
(indexed by step and by textual call site, multiplied by the requested
standard deviation at each use), and the numeric primitives. -/
structure RfCtx where
  model : List ℚ → ℚ
  transform : List ℚ → List ℚ
  expected : List String
  gauss : ℕ → ℕ → ℚ
  s2p : ℚ → ℚ
  c2p : ℚ → ℚ
  sqrtA : ℚ → ℚ

/-- The sorted working history: predict_future_values sorts by time when
the time column exists (stable sort; the source's quicksort differs only
on ties of the key). -/
def rf_sorted (inp : RfInput) : List HRow :=
  if inp.timeColPresent then
    sortBy (fun a b => decide (a.time ≤ b.time)) inp.rows
  else inp.rows

/-- Deduplication keeping first occurrences (pandas drop_duplicates). -/
def dedupFirst {a : Type} [DecidableEq a] : List a → List a → List a
  | _, [] => []
  | seen, x :: r => if x ∈ seen then dedupFirst seen r else x :: dedupFirst (x :: seen) r

/-- Per-key means of a value series grouped by a key series, keys in
ascending order (pandas groupby(...).mean()). -/
def groupMeans (keys : List ℚ) (vals : List ℚ) : List (ℚ × ℚ) :=
  (sortBy (fun a b => decide (a ≤ b)) (dedupFirst [] keys)).map (fun k =>
    (k, meanList ((keys.zip vals).filterMap (fun p => if p.1 = k then some p.2 else none))))

/-- A pattern table normalized by its own overall mean, the multiplicative
factors of the warmup phase (pattern / pattern.mean()). -/
def patternNorm (keys : List ℚ) (vals : List ℚ) : List (ℚ × ℚ) :=
  let gm := groupMeans keys vals
  let overall := meanList (gm.map Prod.snd)
  gm.map (fun p => (p.1, p.2 / overall))

/-- Series.get(k, d): table lookup with default. -/
def lookupD : List (ℚ × ℚ) → ℚ → ℚ → ℚ
  | [], _, d => d
  | (a, b) :: r, k, d => if a = k then b else lookupD r k d

/-- The per-run constants predict_future_values (rf_predict.py) computes
before its loop; frozen for the run. -/
structure RfSetup where
  target : String
  sortedRows : List HRow
  avgDiff : ℚ
  stdDiff : ℚ
  daily : Option (List (ℚ × ℚ))
  weekly : Option (List (ℚ × ℚ))
  futureTimes : List ℚ
  deriving DecidableEq

/-- Warmup of predict_future_values (rf_predict.py): sort, future time
points (None when the time column is absent or fewer than 2 rows), and for
histories longer than 24 rows the mean and sample standard deviation of
the target's first differences plus the normalized hourly pattern (and the
weekly pattern when at least 24*7 rows exist); shorter histories use
avg_diff = 0, std_diff = 0.01 and no pattern tables.  The unused
volatility and baseline statistics of the source are omitted. -/
def rf_setup (tgt : String) (ctx : RfCtx) (inp : RfInput) (periods : ℕ) : Option RfSetup :=
  match create_future_timepoints inp.timeColPresent ((rf_sorted inp).map HRow.time) periods with
  | none => none
  | some fts =>
    if 24 < (rf_sorted inp).length then
      some { target := tgt, sortedRows := rf_sorted inp
             avgDiff := meanList (pairDiffs ((rf_sorted inp).map HRow.target))
             stdDiff := ctx.sqrtA (sampleVar (pairDiffs ((rf_sorted inp).map HRow.target)))
             daily := if 24 ≤ (rf_sorted inp).length then
                 some (patternNorm ((rf_sorted inp).map HRow.hour)
                   ((rf_sorted inp).map HRow.target)) else none
             weekly := if 24 * 7 ≤ (rf_sorted inp).length then
                 some (patternNorm ((rf_sorted inp).map HRow.dow)
                   ((rf_sorted inp).map HRow.target)) else none
             futureTimes := fts }
    else
      some { target := tgt, sortedRows := rf_sorted inp, avgDiff := 0, stdDiff := 1/100
             daily := none, weekly := none, futureTimes := fts }

/-- The single-row working frame future_data starts as the last row of the
sorted history (working_df.iloc[-1:]), carried as a feature map. -/
def rowToFMap (tgt : String) (r : HRow) : List (String × ℚ) :=
  [("time_dt", r.time), (tgt, r.target), ("hour_of_day", r.hour), ("day_of_week", r.dow)]
    ++ r.extra

/-- Initial future_data of a run. -/
def rf_init_fd (tgt : String) (inp : RfInput) : List (String × ℚ) :=
  match (rf_sorted inp).getLast? with
  | some r => rowToFMap tgt r
  | none => []

/-- create_time_features applied to the single-row future_data frame:
recomputes every calendar feature of the new future timestamp, writing the
columns in the source's assignment order; the manual one-hot always writes
all four day-part indicators.  The timestamp is stored as its
epoch-seconds value, the number the column-wise datetime coercion
(rf_coerce_column) later feeds to the scaler. -/
def fmap_time_features (s2p c2p : ℚ → ℚ) (fd : List (String × ℚ)) (t : ℚ) :
    List (String × ℚ) :=
  let h := hour_of_day_q t
  let d := day_of_week_q t
  let f1 := alistSet fd "hour_of_day" h
  let f2 := alistSet f1 "day_of_week" d
  let f3 := alistSet f2 "day_of_month" (day_of_month_q t)
  let f4 := alistSet f3 "month" (month_q t)
  let f5 := alistSet f4 "is_weekend" (is_weekend_q d)
  let dp := get_day_part h
  let f6 := dayPartNames.foldl (fun acc p =>
    alistSet acc ("day_part_" ++ p) (if dp = p then 1 else 0)) f5
  let f7 := alistSet f6 "hour_sin" (s2p (h / 24))
  let f8 := alistSet f7 "hour_cos" (c2p (h / 24))
  let f9 := alistSet f8 "day_sin" (s2p (d / 7))
  alistSet f9 "day_cos" (c2p (d / 7))

/-- working_df.iloc[k][target_var]. -/
def iloc_target (rows : List HRow) (k : ℤ) : Except String ℚ :=
  pyGet (rows.map HRow.target) k

/-- Lag-feature update of one stepping iteration (rf_predict.py, the
"for lag in range(1, 25)" loop): when fewer predictions than the lag depth
exist, lag 1 after the first iteration reads the newest prediction (noise
scale 0.5 * std_diff) and every other lag reads working_df.iloc[i - lag]
(noise scale 0.3 * std_diff), an access that raises IndexError when the
history is shorter than the lookback; once enough predictions exist the
lag reads all_predictions[-lag] (noise scale 0.3 * std_diff).  The noise
source is drawn once per lag. -/
def rf_lag_update (ctx : RfCtx) (su : RfSetup) (i : ℕ) (preds : List ℚ)
    (fd0 : List (String × ℚ)) : Except String (List (String × ℚ)) :=
  (List.range 24).foldlM (fun fd l => do
    let lag := l + 1
    let col := su.target ++ "_lag_" ++ toString lag
    if preds.length < lag then
      if lag = 1 ∧ 0 < i then do
        let v ← pyGet preds (-1)
        .ok (alistSet fd col (v + ctx.gauss i l * (su.stdDiff * (5/10))))
      else do
        let idx : ℤ := if (-(lag : ℤ) + (i : ℤ)) < 0 then -(lag : ℤ) + (i : ℤ) else 0
        let v ← if idx < 0 then iloc_target su.sortedRows idx else pyGet preds 0
        .ok (alistSet fd col (v + ctx.gauss i l * (su.stdDiff * (3/10))))
    else do
      let v ← pyGet preds (-(lag : ℤ))
      .ok (alistSet fd col (v + ctx.gauss i l * (su.stdDiff * (3/10))))) fd0

/-- The blended prediction/history window a stepping iteration aggregates
for one rolling-window width: index j counts back from the newest value,
falling back to the historical tail when predictions run out (with a
strict abs(idx) < len(working_df) guard) and to the first prediction, or
the last historical value when none exists, otherwise. -/
def rf_rolling_values (su : RfSetup) (preds : List ℚ) (w : ℕ) : Except String (List ℚ) :=
  (List.range w).mapM (fun j =>
    if j < preds.length then pyGet preds (-(j : ℤ) - 1)
    else
      let idx : ℤ := -(j : ℤ) - 1 + (preds.length : ℤ)
      if idx < 0 ∧ idx.natAbs < su.sortedRows.length then iloc_target su.sortedRows idx
      else
        match preds with
        | p :: _ => .ok p
        | [] => iloc_target su.sortedRows (-1))

/-- Rolling-feature update of one stepping iteration (rf_predict.py):
per window, the mean plus noise (scale 0.2 * std_diff), the numpy
population standard deviation floored at 0.00001 (std_diff when a single
value), and the min minus / max plus noise (scale 0.1 * std_diff). -/
def rf_rolling_update (ctx : RfCtx) (su : RfSetup) (i : ℕ) (preds : List ℚ)
    (fd0 : List (String × ℚ)) : Except String (List (String × ℚ)) :=
  rollingWindows.enum.foldlM (fun fd p => do
    let jw := p.1
    let w := p.2
    let vals ← rf_rolling_values su preds w
    let fd := alistSet fd (su.target ++ "_rolling_mean_" ++ toString w)
      (meanList vals + ctx.gauss i (24 + 3 * jw) * (su.stdDiff * (2/10)))
    let fd := alistSet fd (su.target ++ "_rolling_std_" ++ toString w)
      (max (if 1 < vals.length then ctx.sqrtA (popVar vals) else su.stdDiff) (1/100000))
    let fd := alistSet fd (su.target ++ "_rolling_min_" ++ toString w)
      (listMin vals - ctx.gauss i (24 + 3 * jw + 1) * (su.stdDiff * (1/10)))
    .ok (alistSet fd (su.target ++ "_rolling_max_" ++ toString w)
      (listMax vals + ctx.gauss i (24 + 3 * jw + 2) * (su.stdDiff * (1/10))))) fd0

/-- Feature-matrix extraction of one stepping iteration: when the scaler
exposes expected feature names (a nonempty list; an empty Python list is
falsy) every missing expected column is first written as 0 into
future_data — a mutation that persists — and the expected columns are read
in order; otherwise the row is every column не starting with time_ and not
the target.  The subsequent non-numeric coercion block of the source is
the identity here because future_data carries numbers (its datetime column
is already carried as epoch seconds, see fmap_time_features and
rf_coerce_column). -/
def rf_build_X (ctx : RfCtx) (tgt : String) (fd : List (String × ℚ)) :
    List (String × ℚ) × List ℚ :=
  match ctx.expected with
  | [] =>
    (fd, (fd.filter (fun p => ¬ (p.1.startsWith "time_" ∨ p.1 = tgt))).map Prod.snd)
  | _ =>
    let fd2 := ctx.expected.foldl (fun acc f =>
      if alistHas acc f then acc else alistSet acc f 0) fd
    (fd2, ctx.expected.map (fun f => (alistGet fd2 f).getD 0))

/-- One stepping iteration of rf_predict.py up to and including the two
multiplicative pattern adjustments: write the future timestamp, recompute
calendar, lag and rolling features, reconcile, scale, invoke the model,
then apply pred *= 1 + (hourly_factor - 1) * 0.4 and
pred *= 1 + (weekly_factor - 1) * 0.3 when the corresponding table exists
and the looked-up column is present.  Returns the adjusted prediction and
the updated future_data. -/
def rf_step_adjusted (ctx : RfCtx) (su : RfSetup) (i : ℕ) (t : ℚ) (preds : List ℚ)
    (fd : List (String × ℚ)) : Except String (ℚ × List (String × ℚ)) := do
  let fd := alistSet fd "time_dt" t
  let fd := fmap_time_features ctx.s2p ctx.c2p fd t
  let fd ← rf_lag_update ctx su i preds fd
  let fd ← rf_rolling_update ctx su i preds fd
  let bx := rf_build_X ctx su.target fd
  let pred := ctx.model (ctx.transform bx.2)
  let pred :=
    match su.daily with
    | some tbl =>
      match alistGet bx.1 "hour_of_day" with
      | some h => pred * (1 + (lookupD tbl h 1 - 1) * (4/10))
      | none => pred
    | none => pred
  let pred :=
    match su.weekly with
    | some tbl =>
      match alistGet bx.1 "day_of_week" with
      | some d => pred * (1 + (lookupD tbl d 1 - 1) * (3/10))
      | none => pred
    | none => pred
  .ok (pred, bx.1)

/-- The linear trend term of stepping iteration i (0-based enumerate
index): trend_adjustment = i * avg_diff * 0.3. -/
def trend_adjustment (i : ℕ) (avgDiff : ℚ) : ℚ := (i : ℚ) * avgDiff * (3/10)

/-- Lower clamp bound: working_df[target_var].min() * 0.8. -/
def clamp_lo (rows : List HRow) : ℚ := listMin (rows.map HRow.target) * (8/10)

/-- Upper clamp bound: working_df[target_var].max() * 1.2. -/
def clamp_hi (rows : List HRow) : ℚ := listMax (rows.map HRow.target) * (12/10)

/-- Loop state of a run: the predictions so far and future_data. -/
structure RfState where
  preds : List ℚ
  fd : List (String × ℚ)
  deriving DecidableEq

/-- One full stepping iteration: the adjusted prediction, plus the trend
term, plus the final noise term (scale 0.7 * std_diff), clamped by
pred = max(min_val, min(max_val, pred)); the result is appended to the
predictions and written into future_data's target column. -/
def rf_step (ctx : RfCtx) (su : RfSetup) (i : ℕ) (t : ℚ) (st : RfState) :
    Except String RfState := do
  let af ← rf_step_adjusted ctx su i t st.preds st.fd
  let pred := af.1 + trend_adjustment i su.avgDiff
  let pred := pred + ctx.gauss i 36 * (su.stdDiff * (7/10))
  let pred := max (clamp_lo su.sortedRows) (min (clamp_hi su.sortedRows) pred)
  .ok { preds := st.preds ++ [pred], fd := alistSet af.2 su.target pred }

/-- The stepping loop over the enumerated future time points. -/
def rf_loop (ctx : RfCtx) (su : RfSetup) : List (ℕ × ℚ) → RfState → Except String RfState
  | [], st => .ok st
  | it :: rest, st => do
    let st2 ← rf_step ctx su it.1 it.2 st
    rf_loop ctx su rest st2

/-- predict_future_values of rf_predict.py: warmup (returning the
InsufficientHistory failure — the source's (None, None) — when
create_future_timepoints yields None), then the stepping loop from the
last historical row; on completion, the future time points paired with
the predictions in step order. -/
def predict_future_values_rf (ctx : RfCtx) (inp : RfInput) (periods : ℕ) (tgt : String) :
    Except String (List ℚ × List ℚ) :=
  match rf_setup tgt ctx inp periods with
  | none => .error "InsufficientHistory"
  | some su =>
    match rf_loop ctx su su.futureTimes.enum { preds := [], fd := rf_init_fd tgt inp } with
    | .error e => .error e
    | .ok st => .ok (su.futureTimes, st.preds)

/-- The rows of a frame (row-major view). -/
def frameRows (f : Frame) : List (List Cell) :=
  (List.range (frameHeight f)).map (fun i => f.map (fun c => c.2.getD i none))

/-- Rebuild a frame from named rows. -/
def fromRows (names : List String) (rows : List (List Cell)) : Frame :=
  names.enum.map (fun p => (p.2, rows.map (fun r => r.getD p.1 none)))

/-- drop_duplicates().reset_index(drop = True): removes exact-duplicate
rows, keeping first occurrences (applied unconditionally here; the
source's duplicated().any() guard only skips a no-op). -/
def dropDuplicateRows (f : Frame) : Frame :=
  fromRows (colNames f) (dedupFirst [] (frameRows f))

/-- sort_values(time_col).reset_index(drop = True): rows sorted by the
time column (stable sort; NaN keys, which the inputs under study do not
contain, sort as 0 here). -/
def sortFrameByTime (f : Frame) (c : String) : Frame :=
  let ti := (colNames f).indexOf c
  fromRows (colNames f)
    (sortBy (fun a b =>
      decide (((a.getD ti none).getD 0) ≤ ((b.getD ti none).getD 0))) (frameRows f))

/-- working_df.loc[len(working_df), c] = v: pandas creates the new row
with NaN in every other column. -/
def addNaNRow (f : Frame) : Frame :=
  f.map (fun col => (col.1, col.2 ++ [none]))

/-- working_df.loc[i, c] = v on an existing row and column. -/
def setCellAt (f : Frame) (c : String) (i : ℕ) (v : Cell) : Frame :=
  f.map (fun col => if col.1 = c then (col.1, col.2.set i v) else col)

/-- Row i of a frame as a name-to-cell map (working_df.iloc[i]). -/
def rowAt (f : Frame) (i : ℕ) : List (String × Cell) :=
  f.map (fun col => (col.1, col.2.getD i none))

/-- Frame extension of one v2 iteration (future_predict.py): build the
single-row featured new_row for the future timestamp, append a NaN row to
the working frame (loc-based assignment leaves every other column NaN),
write the timestamp, and copy every new_row column the working frame
already has (the day-part dummies new_row lacks stay NaN). -/
def v2_augmented (ctx : RfCtx) (t : ℚ) (w0 : Frame) : Frame :=
  (create_time_features_v2 ctx.s2p ctx.c2p [("time_dt", [some t])] "time_dt").foldl
    (fun acc col =>
      if alistHas acc col.1 ∧ col.1 ≠ "time_dt" then
        setCellAt acc col.1 (frameHeight w0) (col.2.getD 0 none)
      else acc)
    (setCellAt (addNaNRow w0) "time_dt" (frameHeight w0) (some t))

/-- Feature array of one v2 iteration: the scaler's expected features read
from the current row with the per-value coercion, 0 when absent. -/
def v2_features (expected : List String) (cur : List (String × Cell)) : List ℚ :=
  expected.map (fun f =>
    match alistGet cur f with
    | some c => v2_coerce_value (cellToPdValue c)
    | none => 0)

/-- One iteration of the v2 recursive loop (future_predict.py): extend the
working frame with the featured future row (v2_augmented), recompute the
lag and rolling features over the whole frame, read the last row, assemble
the feature array in the scaler's expected order (v2_features), scale,
predict, append the prediction and write it into the target column.  No
pattern, trend, noise or clamp adjustment exists in this variant. -/
def v2_step (ctx : RfCtx) (target : String) (i : ℕ) (t : ℚ)
    (st : Frame × List ℚ) : Except String (Frame × List ℚ) := do
  let w3 ← create_lag_features (v2_augmented ctx t st.1) target
  let w4 ← create_rolling_features ctx.sqrtA w3 target
  Except.ok
    (setCellAt w4 target (frameHeight st.1)
      (some (ctx.model (ctx.transform (v2_features ctx.expected (rowAt w4 (frameHeight st.1)))))),
     st.2 ++ [ctx.model (ctx.transform (v2_features ctx.expected (rowAt w4 (frameHeight st.1))))])

/-- predict_future_values of future_predict.py (v2): reading the time
column raises KeyError when absent (pd.to_datetime on working_df[time_col]),
then duplicate rows are dropped, rows sorted by time, the calendar, lag
and rolling features computed once over the history, and the recursive
loop run over the given future time points; the result pairs the future
time points with the predictions. -/
def predict_future_values_v2 (ctx : RfCtx) (hist : Frame) (futureTimes : List ℚ)
    (target : String) : Except String (List ℚ × List ℚ) := do
  let _ ← getColE hist "time_dt"
  let w := dropDuplicateRows hist
  let w := sortFrameByTime w "time_dt"
  let w := create_time_features_v2 ctx.s2p ctx.c2p w "time_dt"
  let w ← create_lag_features w target
  let w ← create_rolling_features ctx.sqrtA w target
  let st ← futureTimes.enum.foldlM (fun st it => v2_step ctx target it.1 it.2 st) (w, [])
  .ok (futureTimes, st.2)

/-- The per-row feature matrix of a reconciled frame (row-major), the form
scaler.transform and model.predict consume. -/
def frame_rows_q (x : List (String × List ℚ)) (n : ℕ) : List (List ℚ) :=
  (List.range n).map (fun i => x.map (fun c => c.2.getD i 0))

/-- The frame make_predictions engineers first: the calendar features are
added only when the time_dt column exists. -/
def mp_base (ctx : RfCtx) (df : Frame) : Frame :=
  if alistHas df "time_dt" then create_time_features ctx.s2p ctx.c2p df "time_dt" else df

/-- make_predictions of rf_predict.py (one-shot path): engineer calendar
(when time_dt exists), lag and rolling features on a copy, reconcile
against the scaler's expected feature list (reconcile_features), scale and
predict row-wise (the regressor maps one feature row to one scalar, so one
prediction per input row), and return the original frame with the single
added column target + "_predicted" alongside the predictions.  The
column-wise non-numeric coercion of the source is the identity on the
numeric matrix reconcile_features produces (see rf_coerce_column). -/
def make_predictions (ctx : RfCtx) (df : Frame) (tgt : String) :
    Except String (Frame × List ℚ) := do
  let dfc ← create_lag_features (mp_base ctx df) tgt
  let dfc2 ← create_rolling_features ctx.sqrtA dfc tgt
  Except.ok
    (alistSet df (tgt ++ "_predicted")
      (((frame_rows_q (reconcile_features ctx.expected dfc2) (frameHeight df)).map
        (fun r => ctx.model (ctx.transform r))).map some),
     (frame_rows_q (reconcile_features ctx.expected dfc2) (frameHeight df)).map
        (fun r => ctx.model (ctx.transform r)))

/-- A context with a constant regressor: transform is the identity, the
noise source always draws 0, the opaque primitives are stubs, and the
scaler expects the single feature named by its argument. -/
def constCtx (c : ℚ) (feat : String) : RfCtx :=
  { model := fun _ => c, transform := id, expected := [feat],
    gauss := fun _ _ => 0, s2p := fun _ => 0, c2p := fun _ => 0, sqrtA := fun q => q }

/-- A featured historical row j hours after the epoch with target value v. -/
def mkRow (j : ℕ) (v : ℚ) : HRow :=
  { time := (j : ℚ) * 3600, target := v, hour := ((j % 24 : ℕ) : ℚ),
    dow := ((((j / 24 : ℕ) + 3) % 7 : ℕ) : ℚ), extra := [] }

/-- 24 hourly rows with constant target 10: the shortest history on which
the rf_predict.py recursive run completes (every lag lookback in range),
short enough that the warmup uses avg_diff = 0 and no pattern tables. -/
def inp24 : RfInput :=
  { timeColPresent := true, rows := (List.range 24).map (fun j => mkRow j 10) }

/-- 25 hourly rows with targets 0, 12, ..., 12, 24: more than 24 rows, so
the warmup computes the real mean first difference (here 24/24 = 1) and
the hourly pattern table; every hour-of-day group has mean 12, so every
normalized hourly factor is exactly 1. -/
def inp25 : RfInput :=
  { timeColPresent := true,
    rows := (List.range 25).map (fun j =>
      mkRow j (if j = 0 then 0 else if j = 24 then 24 else 12)) }

/-- 5 hourly rows with constant target 10: at least 2 time-ordered rows,
yet the first stepping iteration's lag-6 lookback indexes iloc[-6] into a
5-row history. -/
def inp5 : RfInput :=
  { timeColPresent := true, rows := (List.range 5).map (fun j => mkRow j 10) }

/-- A 2-row v2 history with target values 1 and 2. -/
def v2hist : Frame :=
  [("time_dt", [some 0, some 3600]), ("cpu", [some 1, some 2])]

/-- The fallback setup used only to project a computed setup out of Option. -/
def suFallback : RfSetup :=
  { target := "", sortedRows := [], avgDiff := 0, stdDiff := 0,
    daily := none, weekly := none, futureTimes := [] }

/-- The warmup setup of the 25-row run with the constant-10 model. -/
def su25 : RfSetup :=
  (rf_setup "average_usage_cpu" (constCtx 10 "average_usage_cpu_lag_1") inp25 1).getD suFallback

/-- The warmup setup of the 24-row run with the constant-10 model. -/
def su24 : RfSetup :=
  (rf_setup "average_usage_cpu" (constCtx 10 "average_usage_cpu_lag_1") inp24 1).getD suFallback

/-- The adjusted prediction and feature map of the first stepping iteration
of the 24-row constant-10 run. -/
def af24 : ℚ × List (String × ℚ) :=
  (rf_step_adjusted (constCtx 10 "average_usage_cpu_lag_1") su24 0 86400 []
    (rf_init_fd "average_usage_cpu" inp24)).toOption.getD (0, [])

/-- A one-row frame holding a feature column and a stale prediction column. -/
def c10df : Frame := [("cpu", [some 1]), ("cpu_predicted", [some 5])]

theorem alistGet_set_self {b : Type} (l : List (String × b)) (c : String) (v : b) :
    alistGet (alistSet l c v) c = some v := by
  induction l with
  | nil => simp [alistSet, alistGet]
  | cons p r ih =>
    by_cases h : p.1 = c
    · simp [alistSet, h, alistGet]
    · simp [alistSet, h, alistGet, ih]

theorem alistGet_set_ne {b : Type} (l : List (String × b)) (c d : String) (v : b)
    (h : d ≠ c) : alistGet (alistSet l c v) d = alistGet l d := by
  have hcd : ¬ c = d := fun h2 => h h2.symm
  induction l with
  | nil => simp [alistSet, alistGet, hcd]
  | cons p r ih =>
    by_cases h2 : p.1 = c
    · simp [alistSet, alistGet, h2, hcd]
    · simp [alistSet, alistGet, h2, ih]

theorem mem_colNames_iff_get {b : Type} (l : List (String × b)) (c : String) :
    c ∈ colNames l ↔ (alistGet l c).isSome := by
  induction l with
  | nil => simp [colNames, alistGet]
  | cons p r ih =>
    by_cases h : p.1 = c
    · simp [colNames, alistGet, h]
    · simp only [colNames, List.map_cons, List.mem_cons, alistGet, if_neg h]
      rw [eq_comm]
      simp only [h, false_or]
      exact ih

theorem colNames_set_new {b : Type} (l : List (String × b)) (c : String) (v : b)
    (h : alistGet l c = none) : colNames (alistSet l c v) = colNames l ++ [c] := by
  induction l with
  | nil => simp [alistSet, colNames]
  | cons p r ih =>
    by_cases h2 : p.1 = c
    · simp [alistGet, h2] at h
    · simp only [alistGet, if_neg h2] at h
      simp only [alistSet, if_neg h2, colNames, List.map_cons, List.cons_append,
        List.cons.injEq, true_and]
      simpa [colNames] using ih h

theorem mem_colNames_set {b : Type} (l : List (String × b)) (c d : String) (v : b) :
    d ∈ colNames (alistSet l c v) ↔ d = c ∨ d ∈ colNames l := by
  induction l with
  | nil => simp [alistSet, colNames]
  | cons p r ih =>
    obtain ⟨n, w⟩ := p
    by_cases h : n = c
    · subst h
      have he : alistSet ((n, w) :: r) n v = (n, v) :: r := by simp [alistSet]
      rw [he]
      simp only [colNames, List.map_cons, List.mem_cons]
      tauto
    · simp only [alistSet, if_neg h, colNames, List.map_cons, List.mem_cons] at ih ⊢
      rw [ih]
      tauto

theorem pairDiffs_length (xs : List ℚ) : (pairDiffs xs).length = xs.length - 1 := by
  induction xs with
  | nil => simp [pairDiffs]
  | cons x r ih =>
    cases r with
    | nil => simp [pairDiffs]
    | cons y s => simpa [pairDiffs] using ih

theorem pairDiffs_pos (xs : List ℚ) (h : List.Chain' (· < ·) xs) :
    ∀ d ∈ pairDiffs xs, 0 < d := by
  induction xs with
  | nil => simp [pairDiffs]
  | cons x r ih =>
    cases r with
    | nil => simp [pairDiffs]
    | cons y s =>
      intro d hd
      simp only [pairDiffs, List.mem_cons] at hd
      rcases hd with hd | hd
      · have hxy : x < y := (List.chain'_cons.mp h).1
        simpa [hd] using sub_pos.mpr hxy
      · exact ih (List.chain'_cons.mp h).2 d hd

theorem meanList_pos (xs : List ℚ) (h1 : ∀ x ∈ xs, 0 < x) (h2 : xs ≠ []) :
    0 < meanList xs := by
  have hsum : 0 < xs.sum := List.sum_pos xs h1 h2
  have hlen : 0 < (xs.length : ℚ) := by
    have : 0 < xs.length := List.length_pos.mpr h2
    exact_mod_cast this
  exact div_pos hsum hlen

theorem avgInterval_pos (ts : List ℚ) (h : List.Chain' (· < ·) ts) (h2 : 2 ≤ ts.length) :
    0 < avgInterval ts := by
  apply meanList_pos _ (pairDiffs_pos ts h)
  have := pairDiffs_length ts
  intro hnil
  rw [hnil] at this
  simp at this
  omega

theorem getD_map_range {a : Type} (f : ℕ → a) (n i : ℕ) (d : a) (h : i < n) :
    (((List.range n).map f).getD i d) = f i := by
  rw [List.getD_eq_getElem?_getD, List.getElem?_map, List.getElem?_range h]
  rfl

theorem insertSorted_length {a : Type} (le : a → a → Bool) (x : a) (l : List a) :
    (insertSorted le x l).length = l.length + 1 := by
  induction l with
  | nil => simp [insertSorted]
  | cons y r ih =>
    by_cases h : le x y
    · simp [insertSorted, h]
    · simp [insertSorted, h, ih]

theorem sortBy_length {a : Type} (le : a → a → Bool) (l : List a) :
    (sortBy le l).length = l.length := by
  induction l with
  | nil => simp [sortBy]
  | cons x r ih => simp [sortBy, insertSorted_length, ih]

theorem rf_sorted_length (inp : RfInput) : (rf_sorted inp).length = inp.rows.length := by
  unfold rf_sorted
  by_cases h : inp.timeColPresent <;> simp [h, sortBy_length]

theorem rf_setup_some (tgt : String) (ctx : RfCtx) (inp : RfInput) (periods : ℕ)
    (su : RfSetup) (h : rf_setup tgt ctx inp periods = some su) :
    su.target = tgt ∧ su.sortedRows = rf_sorted inp ∧
    inp.timeColPresent = true ∧ 2 ≤ inp.rows.length ∧
    su.futureTimes = (List.range periods).map (fun (i : ℕ) =>
      listMax ((rf_sorted inp).map HRow.time)
        + ((i : ℚ) + 1) * avgInterval ((rf_sorted inp).map HRow.time)) ∧
    su.avgDiff = (if 24 < (rf_sorted inp).length
      then meanList (pairDiffs ((rf_sorted inp).map HRow.target)) else 0) := by
  have hfts : ∀ fts, create_future_timepoints inp.timeColPresent
      ((rf_sorted inp).map HRow.time) periods = some fts →
      inp.timeColPresent = true ∧ 2 ≤ inp.rows.length ∧
      fts = (List.range periods).map (fun (i : ℕ) =>
        listMax ((rf_sorted inp).map HRow.time)
          + ((i : ℚ) + 1) * avgInterval ((rf_sorted inp).map HRow.time)) := by
    intro fts hc
    unfold create_future_timepoints at hc
    split at hc
    · exact absurd hc (by simp)
    · next hg =>
      push_neg at hg
      obtain ⟨htp, hlen⟩ := hg
      refine ⟨by revert htp; cases inp.timeColPresent <;> simp, ?_, ?_⟩
      · have := rf_sorted_length inp
        simp only [List.length_map] at hlen
        omega
      · injection hc with hc2
        exact hc2.symm
  unfold rf_setup at h
  split at h
  · exact absurd h (by simp)
  · next fts hc =>
    obtain ⟨htp, hlen, hftsv⟩ := hfts fts hc
    split at h <;> next h24 =>
      injection h with h2
      subst h2
      simp [htp, hlen, hftsv, h24]

theorem rf_step_ok (ctx : RfCtx) (su : RfSetup) (i : ℕ) (t : ℚ) (st : RfState)
    (af : ℚ × List (String × ℚ))
    (h : rf_step_adjusted ctx su i t st.preds st.fd = .ok af) :
    rf_step ctx su i t st = .ok
      { preds := st.preds ++ [max (clamp_lo su.sortedRows) (min (clamp_hi su.sortedRows)
          (af.1 + trend_adjustment i su.avgDiff + ctx.gauss i 36 * (su.stdDiff * (7/10))))],
        fd := alistSet af.2 su.target (max (clamp_lo su.sortedRows) (min (clamp_hi su.sortedRows)
          (af.1 + trend_adjustment i su.avgDiff + ctx.gauss i 36 * (su.stdDiff * (7/10))))) } := by
  unfold rf_step
  rw [show (rf_step_adjusted ctx su i t st.preds st.fd) = .ok af from h]
  rfl

theorem rf_step_shape (ctx : RfCtx) (su : RfSetup) (i : ℕ) (t : ℚ) (st st2 : RfState)
    (h : rf_step ctx su i t st = .ok st2) :
    ∃ x, st2.preds = st.preds
        ++ [max (clamp_lo su.sortedRows) (min (clamp_hi su.sortedRows) x)] := by
  unfold rf_step at h
  cases ha : rf_step_adjusted ctx su i t st.preds st.fd with
  | error e => rw [ha] at h; exact absurd h (by simp [Bind.bind, Except.bind])
  | ok af =>
    rw [ha] at h
    simp only [Bind.bind, Except.bind] at h
    injection h with h2
    subst h2
    exact ⟨_, rfl⟩

theorem rf_loop_props (ctx : RfCtx) (su : RfSetup) (its : List (ℕ × ℚ)) (st st2 : RfState)
    (h : rf_loop ctx su its st = .ok st2) :
    st2.preds.length = st.preds.length + its.length ∧
    (∀ p ∈ st2.preds, p ∈ st.preds ∨
      ∃ x, p = max (clamp_lo su.sortedRows) (min (clamp_hi su.sortedRows) x)) := by
  induction its generalizing st with
  | nil =>
    unfold rf_loop at h
    injection h with h2
    subst h2
    exact ⟨rfl, fun p hp => Or.inl hp⟩
  | cons it rest ih =>
    unfold rf_loop at h
    cases hs : rf_step ctx su it.1 it.2 st with
    | error e => rw [hs] at h; exact absurd h (by simp [Bind.bind, Except.bind])
    | ok st3 =>
      rw [hs] at h
      simp only [Bind.bind, Except.bind] at h
      obtain ⟨x, hx⟩ := rf_step_shape ctx su it.1 it.2 st st3 hs
      obtain ⟨hl, hm⟩ := ih st3 h
      constructor
      · rw [hl, hx]
        simp
        omega
      · intro p hp
        rcases hm p hp with hp2 | hp2
        · rw [hx] at hp2
          rcases List.mem_append.mp hp2 with hp3 | hp3
          · exact Or.inl hp3
          · exact Or.inr ⟨x, (List.mem_singleton.mp hp3)⟩
        · exact Or.inr hp2

theorem run_rf_eq (ctx : RfCtx) (inp : RfInput) (periods : ℕ) (tgt : String)
    (ts ps : List ℚ) (h : predict_future_values_rf ctx inp periods tgt = .ok (ts, ps)) :
    ∃ su st, rf_setup tgt ctx inp periods = some su ∧
      rf_loop ctx su su.futureTimes.enum { preds := [], fd := rf_init_fd tgt inp } = .ok st ∧
      ts = su.futureTimes ∧ ps = st.preds := by
  unfold predict_future_values_rf at h
  split at h
  · exact absurd h (by simp)
  · next su2 hsu2 =>
    split at h
    · exact absurd h (by simp)
    · next st hlp =>
      injection h with h2
      exact ⟨su2, st, hsu2, hlp, congrArg Prod.fst h2.symm, congrArg Prod.snd h2.symm⟩

theorem v2_step_shape (ctx : RfCtx) (tgt : String) (i : ℕ) (t : ℚ)
    (st st2 : Frame × List ℚ) (h : v2_step ctx tgt i t st = .ok st2) :
    ∃ xs, st2.2 = st.2 ++ [ctx.model xs] := by
  unfold v2_step at h
  simp only [Bind.bind, Except.bind] at h
  cases h1 : create_lag_features (v2_augmented ctx t st.1) tgt with
  | error e => rw [h1] at h; simp at h
  | ok w3 =>
    rw [h1] at h
    simp only [] at h
    cases h2 : create_rolling_features ctx.sqrtA w3 tgt with
    | error e => rw [h2] at h; simp at h
    | ok w4 =>
      rw [h2] at h
      simp only [] at h
      injection h with h3
      exact ⟨_, congrArg Prod.snd h3.symm⟩

theorem v2_foldlM_shape (ctx : RfCtx) (tgt : String) (its : List (ℕ × ℚ))
    (st st2 : Frame × List ℚ)
    (h : List.foldlM (fun st it => v2_step ctx tgt it.1 it.2 st) st its = .ok st2) :
    ∀ p ∈ st2.2, p ∈ st.2 ∨ ∃ xs, p = ctx.model xs := by
  induction its generalizing st with
  | nil =>
    simp only [List.foldlM] at h
    injection h with h2
    subst h2
    exact fun p hp => Or.inl hp
  | cons it rest ih =>
    simp only [List.foldlM, Bind.bind, Except.bind] at h
    cases hs : v2_step ctx tgt it.1 it.2 st with
    | error e => rw [hs] at h; simp at h
    | ok st3 =>
      rw [hs] at h
      simp only [] at h
      obtain ⟨xs, hxs⟩ := v2_step_shape ctx tgt it.1 it.2 st st3 hs
      intro p hp
      rcases ih st3 h p hp with hp2 | hp2
      · rw [hxs] at hp2
        rcases List.mem_append.mp hp2 with hp3 | hp3
        · exact Or.inl hp3
        · exact Or.inr ⟨xs, List.mem_singleton.mp hp3⟩
      · exact Or.inr hp2

theorem v2_run_models (ctx : RfCtx) (hist : Frame) (fts : List ℚ) (tgt : String)
    (ts ps : List ℚ) (h : predict_future_values_v2 ctx hist fts tgt = .ok (ts, ps)) :
    ∀ p ∈ ps, ∃ xs, p = ctx.model xs := by
  unfold predict_future_values_v2 at h
  simp only [Bind.bind, Except.bind] at h
  cases h0 : getColE hist "time_dt" with
  | error e => rw [h0] at h; simp at h
  | ok tc =>
    rw [h0] at h
    simp only [] at h
    cases h1 : create_lag_features
        (create_time_features_v2 ctx.s2p ctx.c2p
          (sortFrameByTime (dropDuplicateRows hist) "time_dt") "time_dt") tgt with
    | error e => rw [h1] at h; simp at h
    | ok w1 =>
      rw [h1] at h
      simp only [] at h
      cases h2 : create_rolling_features ctx.sqrtA w1 tgt with
      | error e => rw [h2] at h; simp at h
      | ok w2 =>
        rw [h2] at h
        simp only [] at h
        cases h3 : List.foldlM (fun st it => v2_step ctx tgt it.1 it.2 st)
            (w2, ([] : List ℚ)) fts.enum with
        | error e => rw [h3] at h; simp at h
        | ok st2 =>
          rw [h3] at h
          simp only [] at h
          injection h with h4
          have hp2 := congrArg Prod.snd h4.symm
          simp only at hp2
          intro p hp
          rw [hp2] at hp
          rcases v2_foldlM_shape ctx tgt fts.enum _ st2 h3 p hp with hp3 | hp3
          · simp at hp3
          · exact hp3

theorem make_predictions_ok (ctx : RfCtx) (df : Frame) (tgt : String) (out : Frame)
    (ps : List ℚ) (h : make_predictions ctx df tgt = .ok (out, ps)) :
    out = alistSet df (tgt ++ "_predicted") (ps.map some) ∧ ps.length = frameHeight df := by
  unfold make_predictions at h
  simp only [Bind.bind, Except.bind] at h
  cases h1 : create_lag_features (mp_base ctx df) tgt with
  | error e => rw [h1] at h; simp at h
  | ok dfc =>
    rw [h1] at h
    simp only [] at h
    cases h2 : create_rolling_features ctx.sqrtA dfc tgt with
    | error e => rw [h2] at h; simp at h
    | ok dfc2 =>
      rw [h2] at h
      simp only [] at h
      injection h with h3
      have hout := congrArg Prod.fst h3.symm
      have hps := congrArg Prod.snd h3.symm
      simp only at hout hps
      subst hps
      exact ⟨by rw [hout], by simp [frame_rows_q]⟩

theorem reconcile_fold_present (e : List String) (df : Frame) (n : ℕ) (f : String)
    (hp : (alistGet df f).isSome) :
    alistGet (e.foldl (fun acc g =>
      if alistHas acc g then acc else alistSet acc g (List.replicate n none)) df) f
      = alistGet df f := by
  induction e generalizing df with
  | nil => rfl
  | cons g rest ih =>
    simp only [List.foldl_cons]
    by_cases hg : alistHas df g
    · rw [if_pos hg]
      exact ih df hp
    · rw [if_neg hg]
      have hne : f ≠ g := by
        intro hfg
        subst hfg
        simp [alistHas, Option.isSome_iff_exists] at hg hp
        obtain ⟨v, hv⟩ := hp
        simp [hv] at hg
      have hget := alistGet_set_ne df g f (List.replicate n none) hne
      rw [ih _ (by rw [hget]; exact hp), hget]

theorem reconcile_fold_missing (e : List String) (df : Frame) (n : ℕ) (f : String)
    (hm : alistGet df f = none) (hf : f ∈ e) :
    alistGet (e.foldl (fun acc g =>
      if alistHas acc g then acc else alistSet acc g (List.replicate n none)) df) f
      = some (List.replicate n none) := by
  induction e generalizing df with
  | nil => simp at hf
  | cons g rest ih =>
    simp only [List.foldl_cons]
    by_cases hg : alistHas df g
    · rw [if_pos hg]
      rcases List.mem_cons.mp hf with hfg | hfr
      · subst hfg
        simp [alistHas, hm] at hg
      · exact ih df hm hfr
    · rw [if_neg hg]
      by_cases hfg : f = g
      · subst hfg
        rw [reconcile_fold_present rest _ n f (by rw [alistGet_set_self]; rfl)]
        exact alistGet_set_self df f _
      · rcases List.mem_cons.mp hf with h2 | hfr
        · exact absurd h2 hfg
        · exact ih _ (by rw [alistGet_set_ne df g f _ hfg]; exact hm) hfr

theorem alistGet_map_pair {b : Type} (e : List String) (g : String → b) (f : String)
    (hf : f ∈ e) : alistGet (e.map (fun x => (x, g x))) f = some (g f) := by
  induction e with
  | nil => simp at hf
  | cons x rest ih =>
    by_cases hx : x = f
    · subst hx
      simp [alistGet]
    · rcases List.mem_cons.mp hf with h2 | h2
      · exact absurd h2.symm hx
      · simp [alistGet, hx, ih h2]

theorem colNames_map_pair {b : Type} (e : List String) (g : String → b) :
    colNames (e.map (fun x => (x, g x))) = e := by
  induction e with
  | nil => rfl
  | cons x rest ih => simp [colNames, List.map_map] at ih ⊢; exact ih

theorem alistGet_filter_keys {b : Type} (l : List (String × b)) (e : List String)
    (f : String) (hf : f ∈ e) :
    alistGet (l.filter (fun c => c.1 ∈ e)) f = alistGet l f := by
  induction l with
  | nil => rfl
  | cons p r ih =>
    by_cases hpe : p.1 ∈ e
    · rw [List.filter_cons_of_pos (by simpa using hpe)]
      by_cases hpf : p.1 = f
      · simp [alistGet, hpf]
      · simp [alistGet, hpf, ih]
    · rw [List.filter_cons_of_neg (by simpa using hpe)]
      have hpf : p.1 ≠ f := fun h2 => hpe (h2 ▸ hf)
      simp [alistGet, hpf, ih]

theorem foldl_set_not_mem {b : Type} (m : List String) (acc : List (String × b)) (v : b)
    (f : String) (hf : f ∉ m) :
    alistGet (m.foldl (fun a g => alistSet a g v) acc) f = alistGet acc f := by
  induction m generalizing acc with
  | nil => rfl
  | cons g rest ih =>
    simp only [List.foldl_cons]
    have hfg : f ≠ g := fun h2 => hf (h2 ▸ List.mem_cons_self g rest)
    rw [ih _ (fun h2 => hf (List.mem_cons_of_mem g h2)), alistGet_set_ne acc g f v hfg]

theorem foldl_set_mem {b : Type} (m : List String) (acc : List (String × b)) (v : b)
    (f : String) (hf : f ∈ m) :
    alistGet (m.foldl (fun a g => alistSet a g v) acc) f = some v := by
  induction m generalizing acc with
  | nil => simp at hf
  | cons g rest ih =>
    simp only [List.foldl_cons]
    by_cases hfr : f ∈ rest
    · exact ih _ hfr
    · rcases List.mem_cons.mp hf with hfg | hfg
      · subst hfg
        rw [foldl_set_not_mem rest _ v f hfr, alistGet_set_self]
      · exact absurd hfg hfr

theorem clamp_bounds (lo hi x : ℚ) (h : lo ≤ hi) :
    lo ≤ max lo (min hi x) ∧ max lo (min hi x) ≤ hi :=
  ⟨le_max_left lo _, max_le h (min_le_left hi x)⟩

theorem mem_colNames_foldl_set {b : Type} (m : List String) (d : List (String × b))
    (kf : String → String) (vf : String → b) (c : String) (hc : c ∈ colNames d) :
    c ∈ colNames (m.foldl (fun acc q => alistSet acc (kf q) (vf q)) d) := by
  induction m generalizing d with
  | nil => exact hc
  | cons q rest ih =>
    simp only [List.foldl_cons]
    exact ih _ ((mem_colNames_set d (kf q) c (vf q)).mpr (Or.inr hc))

theorem mem_colNames_daypart_fold {b : Type} (m : List String) (d : List (String × b))
    (vf : String → b) (p : String) (hp : p ∈ m) :
    ("day_part_" ++ p) ∈ colNames
      (m.foldl (fun acc q => alistSet acc ("day_part_" ++ q) (vf q)) d) := by
  induction m generalizing d with
  | nil => simp at hp
  | cons q rest ih =>
    simp only [List.foldl_cons]
    rcases List.mem_cons.mp hp with h2 | h2
    · subst h2
      exact mem_colNames_foldl_set rest _ _ vf _
        ((mem_colNames_set d _ _ (vf p)).mpr (Or.inl rfl))
    · exact ih _ h2

theorem mem_colNames_calendarCyclic (s2p c2p : ℚ → ℚ) (d : Frame) (times : List Cell)
    (c : String) (hc : c ∈ colNames d) :
    c ∈ colNames (calendarCyclic s2p c2p d times) := by
  simp only [calendarCyclic]
  iterate 4 rw [mem_colNames_set]
  tauto

/-- Claim C4 (amended): only the calendar engineers return the input frame
unmodified when their source column (the time column) is absent; the lag
and rolling engineers raise a KeyError when the target column is absent,
instead of passing the data through. -/
theorem claim_c4_theorem :
    (∀ (s2p c2p : ℚ → ℚ) (df : Frame) (tc : String), alistGet df tc = none →
      create_time_features s2p c2p df tc = df ∧
      create_time_features_v2 s2p c2p df tc = df) ∧
    (∀ (df : Frame) (t : String), alistGet df t = none →
      create_lag_features df t = .error ("KeyError: " ++ t)) ∧
    (∀ (sq : ℚ → ℚ) (df : Frame) (t : String), alistGet df t = none →
      create_rolling_features sq df t = .error ("KeyError: " ++ t)) := by
  refine ⟨fun s2p c2p df tc h => ⟨?_, ?_⟩, fun df t h => ?_, fun sq df t h => ?_⟩
  · unfold create_time_features
    rw [h]
  · unfold create_time_features_v2
    rw [h]
  · unfold create_lag_features lagPeriods
    simp [List.foldlM, getColE, h, Bind.bind, Except.bind]
  · unfold create_rolling_features rollingWindows
    simp [List.foldlM, getColE, h, Bind.bind, Except.bind]

/-- Claim C4 witness: a concrete frame without the expected source column,
on which the calendar engineer passes through unmodified and both
target-derived engineers raise. -/
theorem claim_c4_witness :
    create_time_features (fun _ => 0) (fun _ => 0) [("a", [some 1])] "time_dt"
      = [("a", [some 1])] ∧
    create_lag_features [("a", [some 1])] "cpu" = .error ("KeyError: " ++ "cpu") ∧
    create_rolling_features (fun q => q) [("a", [some 1])] "cpu"
      = .error ("KeyError: " ++ "cpu") :=
  ⟨(claim_c4_theorem.1 (fun _ => 0) (fun _ => 0) [("a", [some 1])] "time_dt" (by decide!)).1,
   claim_c4_theorem.2.1 [("a", [some 1])] "cpu" (by decide!),
   claim_c4_theorem.2.2 (fun q => q) [("a", [some 1])] "cpu" (by decide!)⟩

/-- Claim C4 counterexample: create_lag_features on a frame lacking the
target column raises a KeyError (the source reads df[target] without a
guard), refuting the claim that each feature engineer returns the input
unmodified rather than raising. -/
theorem claim_c4_cex :
    alistGet [("a", [some (1 : ℚ)])] "cpu" = none ∧
    create_lag_features [("a", [some (1 : ℚ)])] "cpu" = .error "KeyError: cpu" := by
  exact ⟨by decide!, by decide!⟩

/-- Claim C5 (amended): the rf_predict.py calendar engineer always emits
all four day-part indicator columns (its one-hot is an explicit loop over
the four category names), and for every hour 0-23 exactly one of the four
indicators is 1 (their sum is 1, each being 0 or 1) with morning covering
hours 5-11, afternoon 12-16, evening 17-21 and night 22-4; the v2 engineer
(pd.get_dummies) emits an indicator column only for the categories present
in the batch, so its output can lack indicator columns. -/
theorem claim_c5_theorem :
    (∀ (s2p c2p : ℚ → ℚ) (df : Frame) (tc : String) (times : List Cell),
      alistGet df tc = some times → ∀ p ∈ dayPartNames,
      ("day_part_" ++ p) ∈ colNames (create_time_features s2p c2p df tc)) ∧
    (∀ h : Fin 24,
      ((if get_day_part ((h : ℕ) : ℚ) = "morning" then (1 : ℚ) else 0) +
       (if get_day_part ((h : ℕ) : ℚ) = "afternoon" then (1 : ℚ) else 0) +
       (if get_day_part ((h : ℕ) : ℚ) = "evening" then (1 : ℚ) else 0) +
       (if get_day_part ((h : ℕ) : ℚ) = "night" then (1 : ℚ) else 0) = 1) ∧
      (get_day_part ((h : ℕ) : ℚ) = "morning" ↔ 5 ≤ (h : ℕ) ∧ (h : ℕ) ≤ 11) ∧
      (get_day_part ((h : ℕ) : ℚ) = "afternoon" ↔ 12 ≤ (h : ℕ) ∧ (h : ℕ) ≤ 16) ∧
      (get_day_part ((h : ℕ) : ℚ) = "evening" ↔ 17 ≤ (h : ℕ) ∧ (h : ℕ) ≤ 21) ∧
      (get_day_part ((h : ℕ) : ℚ) = "night" ↔ ((h : ℕ) ≤ 4 ∨ 22 ≤ (h : ℕ)))) := by
  constructor
  · intro s2p c2p df tc times htc p hp
    unfold create_time_features
    rw [htc]
    apply mem_colNames_calendarCyclic
    exact mem_colNames_daypart_fold dayPartNames _ _ p hp
  · decide!

/-- Claim C5 witness: on a one-row hour-3 frame the rf engineer emits the
morning indicator column even though no morning row exists, and hour 3 is
classified as night. -/
theorem claim_c5_witness :
    ("day_part_" ++ "morning") ∈ colNames (create_time_features (fun _ => 0) (fun _ => 0)
      [("time_dt", [some 10800])] "time_dt") ∧
    (get_day_part (((3 : Fin 24) : ℕ) : ℚ) = "night" ↔
      (((3 : Fin 24) : ℕ) ≤ 4 ∨ 22 ≤ ((3 : Fin 24) : ℕ))) :=
  ⟨claim_c5_theorem.1 (fun _ => 0) (fun _ => 0) [("time_dt", [some 10800])] "time_dt"
      [some 10800] (by decide!) "morning" (by decide!),
   (claim_c5_theorem.2 3).2.2.2.2⟩

/-- Claim C5 counterexample: the v2 calendar engineer applied to a one-row
batch whose only hour (3) is a night hour emits the night indicator column
but not the morning one, refuting the claim that all four day-part
indicator columns are always present in the output. -/
theorem claim_c5_cex :
    "day_part_morning" ∉ colNames (create_time_features_v2 (fun _ => 0) (fun _ => 0)
      [("time_dt", [some 10800])] "time_dt") ∧
    "day_part_night" ∈ colNames (create_time_features_v2 (fun _ => 0) (fun _ => 0)
      [("time_dt", [some 10800])] "time_dt") := by
  exact ⟨by decide!, by decide!⟩

/-- Claim C6 (amended): over an all-defined target sequence, every trailing
rolling statistic at row i is computed over the window of the min(w, i+1)
prior-plus-current values, and mean, min and max are defined at every row;
the sample standard deviation (pandas ddof = 1), however, is missing
whenever the window holds fewer than 2 observations — in particular at
row 0 — rather than being defined at every early row.  The rolling-mean
example of the claim holds: window 3 over 10, 20, 30, 40 gives means
10, 15, 20, 30. -/
theorem claim_c6_theorem :
    (∀ (xs : List ℚ) (w i : ℕ), 1 ≤ w → i < xs.length →
      windowValid w (xs.map some) i = (xs.take (i + 1)).drop (i + 1 - w) ∧
      (windowValid w (xs.map some) i).length = min w (i + 1) ∧
      (rollingMeanSeries w (xs.map some)).getD i none
        = some (meanList (windowValid w (xs.map some) i)) ∧
      (rollingMinSeries w (xs.map some)).getD i none
        = some (listMin (windowValid w (xs.map some) i)) ∧
      (rollingMaxSeries w (xs.map some)).getD i none
        = some (listMax (windowValid w (xs.map some) i)) ∧
      (∀ sq : ℚ → ℚ, ((rollingStdSeries sq w (xs.map some)).getD i none).isSome
        ↔ 2 ≤ min w (i + 1))) ∧
    rollingMeanSeries 3 (([10, 20, 30, 40] : List ℚ).map some)
      = [some 10, some 15, some 20, some 30] := by
  constructor
  · intro xs w i hw hi
    have hfm : ∀ l : List ℚ, List.filterMap id (l.map some) = l := by
      intro l
      induction l with
      | nil => rfl
      | cons a t ih => simp [List.filterMap_cons, ih]
    have hwv : windowValid w (xs.map some) i = (xs.take (i + 1)).drop (i + 1 - w) := by
      unfold windowValid
      rw [← List.map_take, ← List.map_drop]
      exact hfm _
    have hlen : (windowValid w (xs.map some) i).length = min w (i + 1) := by
      rw [hwv]
      simp only [List.length_drop, List.length_take]
      omega
    have hne : windowValid w (xs.map some) i ≠ [] := by
      intro h2
      rw [h2] at hlen
      simp at hlen
      omega
    have hmaplen : i < (xs.map some).length := by simpa using hi
    refine ⟨hwv, hlen, ?_, ?_, ?_, ?_⟩
    · unfold rollingMeanSeries
      rw [getD_map_range _ _ _ _ hmaplen, if_neg hne]
    · unfold rollingMinSeries
      rw [getD_map_range _ _ _ _ hmaplen, if_neg hne]
    · unfold rollingMaxSeries
      rw [getD_map_range _ _ _ _ hmaplen, if_neg hne]
    · intro sq
      unfold rollingStdSeries
      rw [getD_map_range _ _ _ _ hmaplen]
      by_cases h2 : (windowValid w (xs.map some) i).length < 2
      · rw [if_pos h2]
        simp
        omega
      · rw [if_neg h2]
        simp
        omega
  · decide!

/-- Claim C6 witness: the general statement applied at window 3, row 1 of
the sequence 10, 20, 30, 40. -/
theorem claim_c6_witness :
    windowValid 3 (([10, 20, 30, 40] : List ℚ).map some) 1
      = (([10, 20, 30, 40] : List ℚ).take 2).drop 0 ∧
    (windowValid 3 (([10, 20, 30, 40] : List ℚ).map some) 1).length = min 3 2 ∧
    (rollingMeanSeries 3 (([10, 20, 30, 40] : List ℚ).map some)).getD 1 none
      = some (meanList (windowValid 3 (([10, 20, 30, 40] : List ℚ).map some) 1)) ∧
    (rollingMinSeries 3 (([10, 20, 30, 40] : List ℚ).map some)).getD 1 none
      = some (listMin (windowValid 3 (([10, 20, 30, 40] : List ℚ).map some) 1)) ∧
    (rollingMaxSeries 3 (([10, 20, 30, 40] : List ℚ).map some)).getD 1 none
      = some (listMax (windowValid 3 (([10, 20, 30, 40] : List ℚ).map some) 1)) ∧
    (∀ sq : ℚ → ℚ, ((rollingStdSeries sq 3 (([10, 20, 30, 40] : List ℚ).map some)).getD 1
      none).isSome ↔ 2 ≤ min 3 2) :=
  claim_c6_theorem.1 [10, 20, 30, 40] 3 1 (by norm_num) (by norm_num)

/-- Claim C6 counterexample: with window 3 over the all-defined sequence
10, 20, 30, 40, the rolling sample standard deviation at row 0 is missing
(pandas ddof = 1 yields NaN on a single observation even with
min_periods = 1), refuting the claim that every trailing rolling statistic
(mean, std, min, max) is defined at every early row. -/
theorem claim_c6_cex :
    (rollingStdSeries (fun q => q) 3 (([10, 20, 30, 40] : List ℚ).map some)).getD 0 (some 37)
      = none := by
  decide!

/-- Claim C8 (amended): the rf_predict.py column-wise coercion behaves as
the claim states — a datetime column becomes its epoch-seconds numbers, a
string column goes through the numeric parser with unparsable entries (and
parse failures) becoming 0, numeric columns pass through; the v2
per-value coercion, however, turns every string into 0 (even numeric-like
ones), turns a datetime into 0 (float() on a Timestamp raises and the
handler substitutes 0), takes the first element of a sequence (0 when
empty), turns NaN into 0 and keeps numbers. -/
theorem claim_c8_theorem :
    (∀ (parse : String → Option ℚ) (vs : List ℚ),
      rf_coerce_column parse (.datetime vs) = vs.map some) ∧
    (∀ (parse : String → Option ℚ) (vs : List Cell),
      rf_coerce_column parse (.numeric vs) = vs) ∧
    (∀ (parse : String → Option ℚ) (vs : List String),
      rf_coerce_column parse (.strings vs) = vs.map (fun s => some ((parse s).getD 0))) ∧
    (∀ (parse : String → Option ℚ) (s : String) (q : ℚ), parse s = some q →
      rf_coerce_column parse (.strings [s]) = [some q]) ∧
    (∀ (parse : String → Option ℚ) (s : String), parse s = none →
      rf_coerce_column parse (.strings [s]) = [some 0]) ∧
    (∀ q : ℚ, v2_coerce_value (.num q) = q) ∧
    (∀ s : String, v2_coerce_value (.str s) = 0) ∧
    (∀ x : ℚ, v2_coerce_value (.dt x) = 0) ∧
    v2_coerce_value .nan = 0 ∧
    (∀ (x : ℚ) (r : List ℚ), v2_coerce_value (.seq (x :: r)) = x) ∧
    v2_coerce_value (.seq []) = 0 := by
  refine ⟨fun parse vs => rfl, fun parse vs => rfl, fun parse vs => rfl,
    fun parse s q h => ?_, fun parse s h => ?_,
    fun q => rfl, fun s => rfl, fun x => rfl, rfl, fun x r => rfl, rfl⟩
  · simp [rf_coerce_column, h]
  · simp [rf_coerce_column, h]

/-- Claim C8 witness: the parse-dependent clauses applied to a concrete
parser that accepts the string 2.5. -/
theorem claim_c8_witness :
    rf_coerce_column (fun s => if s = "2.5" then some (5/2) else none) (.strings ["2.5"])
      = [some (5/2)] ∧
    rf_coerce_column (fun s => if s = "2.5" then some (5/2) else none) (.strings ["abc"])
      = [some 0] :=
  ⟨claim_c8_theorem.2.2.2.1 (fun s => if s = "2.5" then some (5/2) else none) "2.5" (5/2)
      (by decide!),
   claim_c8_theorem.2.2.2.2.1 (fun s => if s = "2.5" then some (5/2) else none) "abc"
      (by decide!)⟩

/-- Claim C8 counterexample: the v2 per-value coercion maps a datetime
value with epoch-seconds 100 to 0, not to 100, refuting the claim that a
datetime value becomes its seconds-since-epoch number in every
reconciliation coercion of the repository. -/
theorem claim_c8_cex :
    v2_coerce_value (.dt 100) = 0 ∧ ¬ ((0 : ℚ) = 100) := by
  exact ⟨rfl, by norm_num⟩

/-- Claim C3 (confirmed): for every expected-feature-name list e and every
candidate frame, both reconcilers (make_predictions in rf_predict.py and
predict_with_xgb in v2/prediction/predict.py) emit exactly the columns of
e in the order of e; an expected column absent from the input appears
filled entirely with 0, and an expected column present in the input keeps
its values (the rf reconciler additionally maps NaN cells to 0 via
fillna). -/
theorem claim_c3_theorem (e : List String) (df : Frame) (f : String) (hf : f ∈ e) :
    colNames (reconcile_features e df) = e ∧
    colNames (predict_with_xgb_reconcile e df) = e ∧
    (alistGet df f = none →
      alistGet (reconcile_features e df) f
        = some (List.replicate (frameHeight df) (0 : ℚ)) ∧
      alistGet (predict_with_xgb_reconcile e df) f
        = some (List.replicate (frameHeight df) (some (0 : ℚ)))) ∧
    (∀ vs, alistGet df f = some vs →
      alistGet (reconcile_features e df) f = some (vs.map (fun c => c.getD 0)) ∧
      alistGet (predict_with_xgb_reconcile e df) f = some vs) := by
  have hrf : ∀ g : String, g ∈ e → alistGet (reconcile_features e df) g
      = some (((alistGet (e.foldl (fun acc q => if alistHas acc q then acc
          else alistSet acc q (List.replicate (frameHeight df) none)) df) g).getD []).map
          (fun c => c.getD 0)) := by
    intro g hg
    exact alistGet_map_pair e _ g hg
  have hv2 : ∀ g : String, g ∈ e → alistGet (predict_with_xgb_reconcile e df) g
      = some ((alistGet ((e.filter (fun q =>
          ¬ alistHas (df.filter (fun c => c.1 ∈ e)) q)).foldl
          (fun acc q => alistSet acc q (List.replicate (frameHeight df) (some 0)))
          (df.filter (fun c => c.1 ∈ e))) g).getD []) := by
    intro g hg
    exact alistGet_map_pair e _ g hg
  refine ⟨colNames_map_pair e _, colNames_map_pair e _, ?_, ?_⟩
  · intro hnone
    constructor
    · rw [hrf f hf, reconcile_fold_missing e df (frameHeight df) f hnone hf]
      simp
    · have hxn : alistGet (df.filter (fun c => c.1 ∈ e)) f = none := by
        rw [alistGet_filter_keys df e f hf]
        exact hnone
      have hm : f ∈ e.filter (fun q =>
          ¬ alistHas (df.filter (fun c => c.1 ∈ e)) q) :=
        List.mem_filter.mpr ⟨hf, by simp [alistHas, hxn]⟩
      rw [hv2 f hf, foldl_set_mem _ _ _ f hm]
      simp
  · intro vs hvs
    constructor
    · rw [hrf f hf, reconcile_fold_present e df (frameHeight df) f (by simp [hvs]), hvs]
      simp
    · have hxs : alistGet (df.filter (fun c => c.1 ∈ e)) f = some vs := by
        rw [alistGet_filter_keys df e f hf]
        exact hvs
      have hnm : f ∉ e.filter (fun q =>
          ¬ alistHas (df.filter (fun c => c.1 ∈ e)) q) := by
        intro hmem
        have h2 := (List.mem_filter.mp hmem).2
        simp [alistHas, hxs] at h2
      rw [hv2 f hf, foldl_set_not_mem _ _ _ f hnm, hxs]
      rfl

/-- A candidate frame holding an expected column b and an extraneous
column, for exercising the reconcilers. -/
def c3df : Frame := [("b", [some 3, none]), ("junk", [some 7, some 8])]

/-- Claim C3 witness: the reconciliation contract applied at the expected
list [a, b] and an input frame holding column b and an extraneous column:
a is inserted as zeros, b keeps its values, the extraneous column is
dropped, in both reconcilers. -/
theorem claim_c3_witness :
    ("a" ∈ (["a", "b"] : List String)) ∧
    (colNames (reconcile_features ["a", "b"] c3df) = ["a", "b"] ∧
     colNames (predict_with_xgb_reconcile ["a", "b"] c3df) = ["a", "b"] ∧
     (alistGet c3df "a" = none →
       alistGet (reconcile_features ["a", "b"] c3df) "a"
         = some (List.replicate (frameHeight c3df) (0 : ℚ)) ∧
       alistGet (predict_with_xgb_reconcile ["a", "b"] c3df) "a"
         = some (List.replicate (frameHeight c3df) (some (0 : ℚ)))) ∧
     (∀ vs, alistGet c3df "a" = some vs →
       alistGet (reconcile_features ["a", "b"] c3df) "a"
         = some (vs.map (fun c => c.getD 0)) ∧
       alistGet (predict_with_xgb_reconcile ["a", "b"] c3df) "a"
         = some vs)) :=
  ⟨by decide!, claim_c3_theorem ["a", "b"] c3df "a" (by decide!)⟩

/-- An input with the time column flag cleared, for exercising the
insufficient-history path. -/
def inpNT : RfInput := { timeColPresent := false, rows := [mkRow 0 1] }

/-- Claim C9 (amended): create_future_timepoints returns None exactly when
the time column is absent or the history has fewer than 2 rows, and under
that condition the recursive rf forecast run fails with no partial output;
but the converse of the claim fails: the run can also fail on longer
histories (an IndexError from the lag lookback), so insufficient history
is not the only failure mode. -/
theorem claim_c9_theorem :
    (∀ (tp : Bool) (times : List ℚ) (periods : ℕ),
      create_future_timepoints tp times periods = none ↔
        tp = false ∨ times.length < 2) ∧
    (∀ (ctx : RfCtx) (inp : RfInput) (periods : ℕ) (tgt : String),
      inp.timeColPresent = false ∨ inp.rows.length < 2 →
      predict_future_values_rf ctx inp periods tgt = .error "InsufficientHistory") := by
  have hiff : ∀ (tp : Bool) (times : List ℚ) (periods : ℕ),
      create_future_timepoints tp times periods = none ↔
        tp = false ∨ times.length < 2 := by
    intro tp times periods
    unfold create_future_timepoints
    cases tp with
    | false => simp
    | true =>
      by_cases h : times.length ≤ 1
      · simp [h]
        omega
      · simp [h]
        omega
  refine ⟨hiff, ?_⟩
  intro ctx inp periods tgt hcond
  have hnone : create_future_timepoints inp.timeColPresent
      ((rf_sorted inp).map HRow.time) periods = none := by
    rw [hiff]
    rcases hcond with h | h
    · exact Or.inl h
    · refine Or.inr ?_
      rw [List.length_map, rf_sorted_length]
      exact h
  have hs : rf_setup tgt ctx inp periods = none := by
    unfold rf_setup
    rw [hnone]
  unfold predict_future_values_rf
  rw [hs]

/-- Claim C9 witness: with the time column flag cleared, the run fails
with InsufficientHistory and emits nothing. -/
theorem claim_c9_witness :
    (inpNT.timeColPresent = false ∨ inpNT.rows.length < 2) ∧
    predict_future_values_rf (constCtx 10 "average_usage_cpu_lag_1") inpNT 3 "average_usage_cpu"
      = .error "InsufficientHistory" :=
  ⟨Or.inl rfl,
   claim_c9_theorem.2 (constCtx 10 "average_usage_cpu_lag_1") inpNT 3 "average_usage_cpu"
     (Or.inl rfl)⟩

/-- Claim C9 counterexample: a 5-row history with the time column present
does not satisfy the insufficient-history condition, yet the run still
fails before producing any output — the lag lookback working_df.iloc[-lag]
raises an IndexError for lag 6 on 5 rows — refuting the only-if direction
of the claim. -/
theorem claim_c9_cex :
    inp5.timeColPresent = true ∧ inp5.rows.length = 5 ∧
    predict_future_values_rf (constCtx 10 "average_usage_cpu_lag_1") inp5 1 "average_usage_cpu"
      = .error "IndexError" ∧
    "IndexError" ≠ "InsufficientHistory" := by
  refine ⟨rfl, by decide!, by decide!, by decide⟩

/-- Claim C10 (amended): when the one-shot prediction succeeds on an input
frame that does not already hold a column named target + "_predicted",
the returned frame is the input plus exactly that one new column appended
at the end, with every pre-existing column, every pre-existing value and
the row count unchanged; on an input that already holds that column,
however, pandas column assignment overwrites it in place, so a
pre-existing value of that column is not preserved and no new column is
added. -/
theorem claim_c10_theorem (ctx : RfCtx) (df : Frame) (tgt : String) (out : Frame)
    (ps : List ℚ) (hpre : alistGet df (tgt ++ "_predicted") = none)
    (h : make_predictions ctx df tgt = .ok (out, ps)) :
    colNames out = colNames df ++ [tgt ++ "_predicted"] ∧
    (∀ c, c ≠ tgt ++ "_predicted" → alistGet out c = alistGet df c) ∧
    alistGet out (tgt ++ "_predicted") = some (ps.map some) ∧
    ps.length = frameHeight df ∧
    frameHeight out = frameHeight df := by
  obtain ⟨hout, hlen⟩ := make_predictions_ok ctx df tgt out ps h
  subst hout
  refine ⟨colNames_set_new df _ _ hpre,
    fun c hc => alistGet_set_ne df _ c _ hc,
    alistGet_set_self df _ _, hlen, ?_⟩
  cases df with
  | nil =>
    have h0 : ps.length = 0 := by simpa [frameHeight] using hlen
    simp [alistSet, frameHeight, h0]
  | cons p r =>
    obtain ⟨n, w⟩ := p
    have hn : ¬ n = tgt ++ "_predicted" := by
      intro h2
      simp [alistGet, h2] at hpre
    simp [alistSet, hn, frameHeight]

/-- A one-row input frame without a predicted column. -/
def c10in : Frame := [("cpu", [some 1])]

/-- Claim C10 witness: the frame-effect contract applied to the successful
run of the constant-2 regressor on the one-row cpu frame. -/
theorem claim_c10_witness :
    alistGet c10in ("cpu" ++ "_predicted") = none ∧
    make_predictions (constCtx 2 "cpu") c10in "cpu"
      = .ok (([("cpu", [some 1]), ("cpu_predicted", [some 2])] : Frame), [2]) ∧
    (colNames ([("cpu", [some 1]), ("cpu_predicted", [some 2])] : Frame)
       = colNames c10in ++ ["cpu" ++ "_predicted"] ∧
     (∀ c, c ≠ "cpu" ++ "_predicted" →
       alistGet ([("cpu", [some 1]), ("cpu_predicted", [some 2])] : Frame) c
         = alistGet c10in c) ∧
     alistGet ([("cpu", [some 1]), ("cpu_predicted", [some 2])] : Frame)
       ("cpu" ++ "_predicted") = some (([2] : List ℚ).map some) ∧
     ([2] : List ℚ).length = frameHeight c10in ∧
     frameHeight ([("cpu", [some 1]), ("cpu_predicted", [some 2])] : Frame)
       = frameHeight c10in) :=
  ⟨by decide!, by decide!,
   claim_c10_theorem (constCtx 2 "cpu") c10in "cpu"
     ([("cpu", [some 1]), ("cpu_predicted", [some 2])] : Frame) [2]
     (by decide!) (by decide!)⟩

/-- Claim C10 counterexample: on an input frame that already holds the
column cpu_predicted with value column [5], the successful one-shot run
returns a frame with the same column names (no new column is added) in
which that pre-existing value column has been overwritten to [2], refuting
the claim that every pre-existing value of the input is unchanged in the
returned frame. -/
theorem claim_c10_cex :
    make_predictions (constCtx 2 "cpu") c10df "cpu"
      = .ok (([("cpu", [some 1]), ("cpu_predicted", [some 2])] : Frame), [2]) ∧
    alistGet c10df ("cpu" ++ "_predicted") = some [some 5] ∧
    colNames ([("cpu", [some 1]), ("cpu_predicted", [some 2])] : Frame) = colNames c10df ∧
    alistGet ([("cpu", [some 1]), ("cpu_predicted", [some 2])] : Frame)
      ("cpu" ++ "_predicted") = some [some 2] ∧
    ¬ (([some 5] : List Cell) = [some 2]) := by
  refine ⟨by decide!, by decide!, by decide!, by decide!, by decide!⟩

/-- Claim C1 (amended): the rf_predict.py recursive forecaster does clamp
every emitted prediction into
[0.8 x min(historical target), 1.2 x max(historical target)] (whenever
that interval is non-degenerate, i.e. the lower clamp bound does not
exceed the upper); but the v2 forecaster
(v2/prediction/future_predict.py) applies no clamp at all — every emitted
prediction is exactly a model output, so a constant model value outside
the interval is emitted unchanged. -/
theorem claim_c1_theorem :
    (∀ (ctx : RfCtx) (inp : RfInput) (periods : ℕ) (tgt : String) (ts ps : List ℚ),
      predict_future_values_rf ctx inp periods tgt = .ok (ts, ps) →
      clamp_lo (rf_sorted inp) ≤ clamp_hi (rf_sorted inp) →
      ∀ p ∈ ps, clamp_lo (rf_sorted inp) ≤ p ∧ p ≤ clamp_hi (rf_sorted inp)) ∧
    (∀ (ctx : RfCtx) (hist : Frame) (fts : List ℚ) (tgt : String) (ts ps : List ℚ)
      (c : ℚ), (∀ xs, ctx.model xs = c) →
      predict_future_values_v2 ctx hist fts tgt = .ok (ts, ps) →
      ∀ p ∈ ps, p = c) := by
  constructor
  · intro ctx inp periods tgt ts ps h hlh p hp
    obtain ⟨su, st, hsu, hlp, hts, hps⟩ := run_rf_eq ctx inp periods tgt ts ps h
    obtain ⟨_, hsr, _, _, _, _⟩ := rf_setup_some tgt ctx inp periods su hsu
    obtain ⟨_, hmem⟩ := rf_loop_props ctx su su.futureTimes.enum
      { preds := [], fd := rf_init_fd tgt inp } st hlp
    rw [← hps] at hmem
    rcases hmem p hp with h2 | ⟨x, hx⟩
    · exact absurd h2 (List.not_mem_nil p)
    · rw [hx, hsr] at *
      rw [hx]
      exact clamp_bounds _ _ x hlh
  · intro ctx hist fts tgt ts ps c hc h p hp
    obtain ⟨xs, hxs⟩ := v2_run_models ctx hist fts tgt ts ps h p hp
    rw [hxs, hc]

/-- Claim C1 witness: the rf clamp invariant applied to the completed
24-row constant-10 run (clamp interval [8, 12], prediction 10), and the
v2 no-clamp fact applied to the completed 2-row run with a constant-1000
regressor. -/
theorem claim_c1_witness :
    (predict_future_values_rf (constCtx 10 "average_usage_cpu_lag_1") inp24 1
       "average_usage_cpu" = .ok ([86400], [10]) ∧
     clamp_lo (rf_sorted inp24) ≤ clamp_hi (rf_sorted inp24) ∧
     (∀ p ∈ ([10] : List ℚ),
       clamp_lo (rf_sorted inp24) ≤ p ∧ p ≤ clamp_hi (rf_sorted inp24))) ∧
    ((∀ xs, (constCtx 1000 "cpu").model xs = 1000) ∧
     predict_future_values_v2 (constCtx 1000 "cpu") v2hist [7200] "cpu"
       = .ok ([7200], [1000]) ∧
     (∀ p ∈ ([1000] : List ℚ), p = 1000)) :=
  ⟨⟨by decide!, by decide!,
    claim_c1_theorem.1 (constCtx 10 "average_usage_cpu_lag_1") inp24 1
      "average_usage_cpu" [86400] [10] (by decide!) (by decide!)⟩,
   ⟨fun xs => rfl, by decide!,
    claim_c1_theorem.2 (constCtx 1000 "cpu") v2hist [7200] "cpu" [7200] [1000] 1000
      (fun xs => rfl) (by decide!)⟩⟩

/-- Claim C1 counterexample: the v2 forecaster run on the 2-row history
whose cpu column is [1, 2] (so 0.8 x min = 0.8 and 1.2 x max = 2.4) with
a constant-1000 regressor completes and emits the prediction 1000, far
outside [0.8, 2.4], refuting the claim that every prediction emitted by
predict_future_values lies in the clamp interval. -/
theorem claim_c1_cex :
    alistGet v2hist "cpu" = some [some 1, some 2] ∧
    predict_future_values_v2 (constCtx 1000 "cpu") v2hist [7200] "cpu"
      = .ok ([7200], [1000]) ∧
    listMin [1, 2] * (8/10) = 8/10 ∧ listMax [1, 2] * (12/10) = 12/5 ∧
    ¬ ((8/10 : ℚ) ≤ 1000 ∧ (1000 : ℚ) ≤ 12/5) := by
  refine ⟨by decide!, by decide!, by decide!, by decide!, ?_⟩
  intro h2
  have h3 := h2.2
  norm_num at h3


/-- Executable strict-ascending check on a list of rationals. -/
def chainLt : List ℚ → Bool
  | [] => true
  | [_] => true
  | x :: y :: r => decide (x < y) && chainLt (y :: r)

theorem chainLt_iff (l : List ℚ) :
    chainLt l = true ↔ List.Chain' (fun a b => a < b) l := by
  induction l with
  | nil => simp [chainLt]
  | cons x r ih =>
    cases r with
    | nil => simp [chainLt]
    | cons y s =>
      rw [List.chain'_cons, ← ih]
      simp [chainLt]

/-- Claim C2 (confirmed): over a strictly time-ordered history, a
completed rf forecast run with horizon at least 1 emits exactly horizon
predictions and exactly horizon future timestamps, the timestamps are
strictly increasing, the k-th future timestamp equals the last (maximal)
historical timestamp plus k times the average historical interval (the
mean of consecutive timestamp differences of the sorted history), and
consecutive future timestamps are spaced by exactly that interval. -/
theorem claim_c2_theorem (ctx : RfCtx) (inp : RfInput) (periods : ℕ) (tgt : String)
    (ts ps : List ℚ)
    (h : predict_future_values_rf ctx inp periods tgt = .ok (ts, ps))
    (hchain : List.Chain' (fun a b => a < b) ((rf_sorted inp).map HRow.time))
    (hp : 1 ≤ periods) :
    ps.length = periods ∧ ts.length = periods ∧
    List.Chain' (fun a b => a < b) ts ∧
    (∀ k, 1 ≤ k → k ≤ periods →
      ts.getD (k - 1) 0 = listMax ((rf_sorted inp).map HRow.time)
        + (k : ℚ) * avgInterval ((rf_sorted inp).map HRow.time)) ∧
    (∀ k, k + 1 < periods →
      ts.getD (k + 1) 0 - ts.getD k 0
        = avgInterval ((rf_sorted inp).map HRow.time)) := by
  obtain ⟨su, st, hsu, hlp, hts, hps⟩ := run_rf_eq ctx inp periods tgt ts ps h
  obtain ⟨_, _, _, hlen2, hft, _⟩ := rf_setup_some tgt ctx inp periods su hsu
  have hlen2m : 2 ≤ ((rf_sorted inp).map HRow.time).length := by
    rw [List.length_map, rf_sorted_length]
    exact hlen2
  have ha : 0 < avgInterval ((rf_sorted inp).map HRow.time) :=
    avgInterval_pos _ hchain hlen2m
  have htseq : ts = (List.range periods).map (fun (i : ℕ) =>
      listMax ((rf_sorted inp).map HRow.time)
        + ((i : ℚ) + 1) * avgInterval ((rf_sorted inp).map HRow.time)) := by
    rw [hts, hft]
  have htlen : ts.length = periods := by
    rw [htseq]
    simp
  obtain ⟨hplen, _⟩ := rf_loop_props ctx su su.futureTimes.enum
    { preds := [], fd := rf_init_fd tgt inp } st hlp
  have hpslen : ps.length = periods := by
    rw [hps, hplen]
    have hz : ({ preds := ([] : List ℚ), fd := rf_init_fd tgt inp } : RfState).preds.length
        = 0 := rfl
    rw [hz, List.enum_length, ← hts, htlen]
    omega
  refine ⟨hpslen, htlen, ?_, ?_, ?_⟩
  · rw [htseq, List.chain'_iff_pairwise, List.pairwise_map]
    refine List.Pairwise.imp ?_ (List.pairwise_lt_range periods)
    intro a b hab
    have hc : (a : ℚ) + 1 < (b : ℚ) + 1 := by exact_mod_cast Nat.succ_lt_succ hab
    have h3 := mul_lt_mul_of_pos_right hc ha
    linarith
  · intro k hk1 hk2
    obtain ⟨j, rfl⟩ : ∃ j, k = j + 1 := ⟨k - 1, by omega⟩
    rw [htseq]
    simp only [Nat.add_sub_cancel]
    rw [getD_map_range _ _ _ _ (by omega : j < periods)]
    push_cast
    ring
  · intro k hk
    rw [htseq, getD_map_range _ _ _ _ (by omega : k + 1 < periods),
        getD_map_range _ _ _ _ (by omega : k < periods)]
    push_cast
    ring

/-- Claim C2 witness: the horizon contract applied to the completed
24-row hourly run with horizon 1: one prediction, one future timestamp
86400 = last historical time 82800 plus 1 x 3600. -/
theorem claim_c2_witness :
    (predict_future_values_rf (constCtx 10 "average_usage_cpu_lag_1") inp24 1
       "average_usage_cpu" = .ok ([86400], [10]) ∧
     List.Chain' (fun a b => a < b) ((rf_sorted inp24).map HRow.time) ∧ 1 ≤ 1) ∧
    (([10] : List ℚ).length = 1 ∧ ([86400] : List ℚ).length = 1 ∧
     List.Chain' (fun a b => a < b) ([86400] : List ℚ) ∧
     (∀ k, 1 ≤ k → k ≤ 1 →
       ([86400] : List ℚ).getD (k - 1) 0 = listMax ((rf_sorted inp24).map HRow.time)
         + (k : ℚ) * avgInterval ((rf_sorted inp24).map HRow.time)) ∧
     (∀ k, k + 1 < 1 →
       ([86400] : List ℚ).getD (k + 1) 0 - ([86400] : List ℚ).getD k 0
         = avgInterval ((rf_sorted inp24).map HRow.time))) :=
  ⟨⟨by decide!, (chainLt_iff _).mp (by decide!), le_refl 1⟩,
   claim_c2_theorem (constCtx 10 "average_usage_cpu_lag_1") inp24 1 "average_usage_cpu"
     [86400] [10] (by decide!) ((chainLt_iff _).mp (by decide!)) (le_refl 1)⟩

/-- Claim C7 (amended): each stepping iteration of the rf forecaster adds
the linear trend term i x avg_diff x 0.3 where i is the iteration index —
but i is the 0-based enumerate index of the future timepoint (so the
first emitted prediction receives no trend at all, and the k-th receives
(k - 1) x avg_diff x 0.3, not k x avg_diff x 0.3), and avg_diff is the
mean of the historical target's consecutive first differences only when
the history holds more than 24 rows, and 0 otherwise. -/
theorem claim_c7_theorem :
    (∀ (ctx : RfCtx) (su : RfSetup) (i : ℕ) (t : ℚ) (st : RfState)
       (af : ℚ × List (String × ℚ)),
      rf_step_adjusted ctx su i t st.preds st.fd = .ok af →
      rf_step ctx su i t st = .ok
        { preds := st.preds ++ [max (clamp_lo su.sortedRows) (min (clamp_hi su.sortedRows)
            (af.1 + (i : ℚ) * su.avgDiff * (3/10)
              + ctx.gauss i 36 * (su.stdDiff * (7/10))))],
          fd := alistSet af.2 su.target (max (clamp_lo su.sortedRows)
            (min (clamp_hi su.sortedRows)
            (af.1 + (i : ℚ) * su.avgDiff * (3/10)
              + ctx.gauss i 36 * (su.stdDiff * (7/10))))) }) ∧
    (∀ (tgt : String) (ctx : RfCtx) (inp : RfInput) (periods : ℕ) (su : RfSetup),
      rf_setup tgt ctx inp periods = some su →
      su.avgDiff = (if 24 < (rf_sorted inp).length
        then meanList (pairDiffs ((rf_sorted inp).map HRow.target)) else 0)) := by
  constructor
  · intro ctx su i t st af h
    have h2 := rf_step_ok ctx su i t st af h
    simpa only [trend_adjustment] using h2
  · intro tgt ctx inp periods su h
    exact (rf_setup_some tgt ctx inp periods su h).2.2.2.2.2

/-- Claim C7 witness: the stepping decomposition applied to the first
iteration (enumerate index 0) of the 24-row constant-10 run, and the
avg_diff characterization applied to the 25-row warmup setup (avg_diff 1,
the mean first difference, since 25 > 24). -/
theorem claim_c7_witness :
    (rf_step_adjusted (constCtx 10 "average_usage_cpu_lag_1") su24 0 86400
       ([] : List ℚ) (rf_init_fd "average_usage_cpu" inp24) = .ok af24 ∧
     rf_step (constCtx 10 "average_usage_cpu_lag_1") su24 0 86400
       { preds := [], fd := rf_init_fd "average_usage_cpu" inp24 } = .ok
       { preds := [] ++ [max (clamp_lo su24.sortedRows) (min (clamp_hi su24.sortedRows)
           (af24.1 + ((0 : ℕ) : ℚ) * su24.avgDiff * (3/10)
             + (constCtx 10 "average_usage_cpu_lag_1").gauss 0 36
                 * (su24.stdDiff * (7/10))))],
         fd := alistSet af24.2 su24.target (max (clamp_lo su24.sortedRows)
           (min (clamp_hi su24.sortedRows)
           (af24.1 + ((0 : ℕ) : ℚ) * su24.avgDiff * (3/10)
             + (constCtx 10 "average_usage_cpu_lag_1").gauss 0 36
                 * (su24.stdDiff * (7/10))))) }) ∧
    (rf_setup "average_usage_cpu" (constCtx 10 "average_usage_cpu_lag_1") inp25 1
       = some su25 ∧
     su25.avgDiff = (if 24 < (rf_sorted inp25).length
       then meanList (pairDiffs ((rf_sorted inp25).map HRow.target)) else 0)) :=
  ⟨⟨by decide!,
    claim_c7_theorem.1 (constCtx 10 "average_usage_cpu_lag_1") su24 0 86400
      { preds := [], fd := rf_init_fd "average_usage_cpu" inp24 } af24 (by decide!)⟩,
   ⟨by decide!,
    claim_c7_theorem.2 "average_usage_cpu" (constCtx 10 "average_usage_cpu_lag_1") inp25 1
      su25 (by decide!)⟩⟩

/-- Claim C7 counterexample: the completed 25-row hourly run (targets 0,
12, ..., 12, 24; every pattern factor exactly 1, noise stubbed to 0) has
avg_diff = 1, the mean first difference, and its single stepping
iteration produces the raw adjusted prediction 10; the claim demands the
trend term 1 x 1 x 0.3 for iteration 1, which would emit 10.3 (10.3
survives the clamp unchanged), yet the run emits exactly 10 — the
enumerate index of the first iteration is 0, so no trend is added. -/
theorem claim_c7_cex :
    predict_future_values_rf (constCtx 10 "average_usage_cpu_lag_1") inp25 1
      "average_usage_cpu" = .ok ([90000], [10]) ∧
    (rf_setup "average_usage_cpu" (constCtx 10 "average_usage_cpu_lag_1") inp25 1).map
      RfSetup.avgDiff = some 1 ∧
    meanList (pairDiffs ((rf_sorted inp25).map HRow.target)) = 1 ∧
    Except.map Prod.fst (rf_step_adjusted (constCtx 10 "average_usage_cpu_lag_1") su25 0
      90000 [] (rf_init_fd "average_usage_cpu" inp25)) = .ok 10 ∧
    max (clamp_lo (rf_sorted inp25)) (min (clamp_hi (rf_sorted inp25))
      (10 + (1 : ℚ) * 1 * (3/10))) = 10 + 1 * 1 * (3/10) ∧
    ¬ ((10 : ℚ) = 10 + 1 * 1 * (3/10)) := by
  refine ⟨by decide!, by decide!, by decide!, by decide!, by decide!, by norm_num⟩
